import Mathlib

/-!
# Auto-type sequence engine (`src/autotype/AutoType.cpp`)

A shallow embedding of the sequence parser (`AutoType::parseActions`), the
template resolver (`AutoType::createActionFromTemplate`), the sequence
selection (`AutoType::autoTypeSequence`), the window matcher
(`AutoType::windowMatches`), the dispatcher (`AutoType::performAutoType`) and
the global trigger (`AutoType::performGlobalAutoType` with its two slots),
followed by theorems about them.

Conventions of the embedding:

* a `QString` is the list of its characters;
* the member `m_autoTypeDelay` is passed in and returned explicitly;
* C++ `int` values are integers; `QString::toInt` yields `0` when the digits
  do not fit a 32-bit `int`;
* the text primitives of the Qt library that depend on Unicode tables (case
  folding, lower-casing, the digit class of `\d`) are a parameter `Q`, fixed
  only on the Basic Latin block;
* the platform plugin is seen through the results of its calls: the
  successive answers of `activeWindow()` are a function of the call number,
  and what the engine hands to the executor, the dialog and the message box
  is recorded in the state.
-/

namespace AutoType

/-! ## Text primitives -/

/-- A `QString`, as the list of its characters. A character stands for one
`QChar`; a character outside the Basic Multilingual Plane, which Qt stores as
two `QChar`s, is not told apart from a single one. -/
abbrev QString := List Char

/-- The Unicode-dependent character primitives of the Qt library used by the
engine. Their tables are not part of the source file; they are constrained
only on Basic Latin, where they agree with the ASCII functions. -/
structure QtText where
  /-- Models `QChar::toCaseFolded`, used by `QString::compare(_, Qt::CaseInsensitive)`. -/
  toCaseFolded : Char → Char
  /-- Models `QChar::toLower`, used by a `QRegExp` built with `Qt::CaseInsensitive`. -/
  toLower : Char → Char
  /-- Models `QChar::isDigit`, the class matched by `\d` in a `QRegExp`. -/
  isDigit : Char → Bool
  toCaseFolded_ascii : ∀ c : Char, c.toNat < 128 → toCaseFolded c = c.toLower
  toLower_ascii : ∀ c : Char, c.toNat < 128 → toLower c = c.toLower
  isDigit_ascii : ∀ c : Char, c.toNat < 128 → isDigit c = c.isDigit

/-- The text primitives restricted to Basic Latin: every other character is
its own case fold and is not a digit. -/
def asciiText : QtText where
  toCaseFolded := Char.toLower
  toLower := Char.toLower
  isDigit := Char.isDigit
  toCaseFolded_ascii := fun _ _ => rfl
  toLower_ascii := fun _ _ => rfl
  isDigit_ascii := fun _ _ => rfl

/-- Whether every character of `s` lies in the Basic Latin block. -/
def isBasicLatin (s : QString) : Bool :=
  s.all (fun c => decide (c.toNat < 128))

/-- Models `a.compare(b, Qt::CaseInsensitive) == 0`. -/
def compareCI (Q : QtText) (a b : QString) : Bool :=
  a.map Q.toCaseFolded == b.map Q.toCaseFolded

/-- Value of a string of ASCII decimal digits, most significant digit first. -/
def decimalValue (ds : QString) : Nat :=
  ds.foldl (fun n c => 10 * n + (c.toNat - 48)) 0

/-- Models `QString::toInt()` on a capture of `\d+`: the conversion is done in the C
locale, so it succeeds only on ASCII digits whose value fits a 32-bit `int`;
a failed conversion returns `0`. -/
def toInt (s : QString) : Int :=
  if s ≠ [] ∧ s.all Char.isDigit = true ∧ decimalValue s ≤ 2147483647 then
    (decimalValue s : Int)
  else 0

/-- Models `QRegExp("delay=(\\d+)", Qt::CaseInsensitive).exactMatch(s)`, returning
`cap(1)` on a match. -/
def delayRegEx (Q : QtText) (s : QString) : Option QString :=
  if (s.take 6).map Q.toLower = "delay=".toList.map Q.toLower
      ∧ s.drop 6 ≠ [] ∧ (s.drop 6).all Q.isDigit = true then
    some (s.drop 6)
  else none

/-- The tail ` (\d+)` of the repeat pattern: a space followed by one or more
digits, up to the end of the string. Returns the digits. -/
def repeatTail (Q : QtText) : QString → Option QString
  | c :: ds => if c = ' ' ∧ ds ≠ [] ∧ ds.all Q.isDigit = true then some ds else none
  | [] => none

/-- Models `QRegExp("(.+) (\\d+)", Qt::CaseInsensitive).exactMatch(s)`, returning
`(cap(1), cap(2))` on a match. `.+` is greedy: the first capture is the
longest non-empty beginning of `s` after which a space and digits remain. -/
def repeatRegEx (Q : QtText) : QString → Option (QString × QString)
  | [] => none
  | c :: rest =>
    match repeatRegEx Q rest with
    | some (cap1, cap2) => some (c :: cap1, cap2)
    | none =>
      match repeatTail Q rest with
      | some cap2 => some ([c], cap2)
      | none => none

/-- Models `QRegExp("f(\\d+)", Qt::CaseInsensitive).exactMatch(s)`, returning
`cap(1)` on a match. -/
def fnRegexp (Q : QtText) : QString → Option QString
  | c :: ds =>
    if Q.toLower c = Q.toLower 'f' ∧ ds ≠ [] ∧ ds.all Q.isDigit = true then some ds else none
  | [] => none

/-! ## Actions -/

/-- The values of `Qt::Key` that the resolver produces. `Key_F n` stands for
`static_cast<Qt::Key>(Qt::Key_F1 - 1 + n)`. -/
inductive Key where
  | Key_Tab | Key_Enter | Key_Space | Key_Up | Key_Down | Key_Left | Key_Right
  | Key_Insert | Key_Delete | Key_Home | Key_End | Key_PageUp | Key_PageDown
  | Key_Backspace | Key_Pause | Key_CapsLock | Key_Escape | Key_Help
  | Key_NumLock | Key_Print | Key_ScrollLock
  | Key_F (n : Int)
  deriving DecidableEq, Repr

/-- The subclasses of `AutoTypeAction` with their constructor arguments. -/
inductive AutoTypeAction where
  | AutoTypeChar (ch : Char)
  | AutoTypeKey (key : Key)
  | AutoTypeDelay (delayMs : Int)
  | AutoTypeClearField
  deriving DecidableEq, Repr

open AutoTypeAction Key

/-! ## Credentials and groups -/

/-- Models `Group::TriState`. -/
inductive TriState where
  | Inherit | Enable | Disable
  deriving DecidableEq, Repr

/-- A group with the fields the engine reads. A group is either the root or
has a parent group. -/
inductive Group where
  | root (autoTypeEnabled : TriState) (defaultAutoTypeSequence : QString)
  | child (autoTypeEnabled : TriState) (defaultAutoTypeSequence : QString) (parent : Group)

/-- Models `Group::autoTypeEnabled()`. -/
def Group.autoTypeEnabled : Group → TriState
  | .root e _ => e
  | .child e _ _ => e

/-- Models `Group::defaultAutoTypeSequence()`. -/
def Group.defaultAutoTypeSequence : Group → QString
  | .root _ s => s
  | .child _ s _ => s

/-- Models `Group::parentGroup()`, `none` for the null pointer of the root. -/
def Group.parentGroup : Group → Option Group
  | .root _ _ => none
  | .child _ _ p => some p

/-- Models `AutoTypeAssociations::Association`. -/
structure Association where
  window : QString
  sequence : QString

/-- An entry with the accessors the engine calls. -/
structure Entry where
  autoTypeEnabled : Bool
  defaultAutoTypeSequence : QString
  autoTypeAssociations : List Association
  title : QString
  username : QString
  password : QString
  group : Group
  resolvePlaceholder : QString → QString

/-! ## `AutoType::createActionFromTemplate` -/

/-- Lines 393-503: the chain of comparisons of `tmplName` against the key and
punctuation names, ending with the function keys. Returns `list` as it stands
at line 505. -/
def namedKeyActions (Q : QtText) (tmplName : QString) : List AutoTypeAction :=
  if compareCI Q tmplName "tab".toList then [AutoTypeKey Key_Tab]
  else if compareCI Q tmplName "enter".toList then [AutoTypeKey Key_Enter]
  else if compareCI Q tmplName "space".toList then [AutoTypeKey Key_Space]
  else if compareCI Q tmplName "up".toList then [AutoTypeKey Key_Up]
  else if compareCI Q tmplName "down".toList then [AutoTypeKey Key_Down]
  else if compareCI Q tmplName "left".toList then [AutoTypeKey Key_Left]
  else if compareCI Q tmplName "right".toList then [AutoTypeKey Key_Right]
  else if compareCI Q tmplName "insert".toList || compareCI Q tmplName "ins".toList then
    [AutoTypeKey Key_Insert]
  else if compareCI Q tmplName "delete".toList || compareCI Q tmplName "del".toList then
    [AutoTypeKey Key_Delete]
  else if compareCI Q tmplName "home".toList then [AutoTypeKey Key_Home]
  else if compareCI Q tmplName "end".toList then [AutoTypeKey Key_End]
  else if compareCI Q tmplName "pgup".toList then [AutoTypeKey Key_PageUp]
  else if compareCI Q tmplName "pgdown".toList then [AutoTypeKey Key_PageDown]
  else if compareCI Q tmplName "backspace".toList || compareCI Q tmplName "bs".toList
      || compareCI Q tmplName "bksp".toList then
    [AutoTypeKey Key_Backspace]
  else if compareCI Q tmplName "break".toList then [AutoTypeKey Key_Pause]
  else if compareCI Q tmplName "capslock".toList then [AutoTypeKey Key_CapsLock]
  else if compareCI Q tmplName "esc".toList then [AutoTypeKey Key_Escape]
  else if compareCI Q tmplName "help".toList then [AutoTypeKey Key_Help]
  else if compareCI Q tmplName "numlock".toList then [AutoTypeKey Key_NumLock]
  else if compareCI Q tmplName "ptrsc".toList then [AutoTypeKey Key_Print]
  else if compareCI Q tmplName "scrolllock".toList then [AutoTypeKey Key_ScrollLock]
  else if compareCI Q tmplName "add".toList || compareCI Q tmplName "+".toList then
    [AutoTypeChar '+']
  else if compareCI Q tmplName "subtract".toList then [AutoTypeChar '-']
  else if compareCI Q tmplName "multiply".toList then [AutoTypeChar '*']
  else if compareCI Q tmplName "divide".toList then [AutoTypeChar '/']
  else if compareCI Q tmplName "^".toList then [AutoTypeChar '^']
  else if compareCI Q tmplName "%".toList then [AutoTypeChar '%']
  else if compareCI Q tmplName "~".toList then [AutoTypeChar '~']
  else if compareCI Q tmplName "(".toList then [AutoTypeChar '(']
  else if compareCI Q tmplName ")".toList then [AutoTypeChar ')']
  else if compareCI Q tmplName ['{'] then [AutoTypeChar '{']
  else if compareCI Q tmplName ['}'] then [AutoTypeChar '}']
  else
    match fnRegexp Q tmplName with
    | some cap1 =>
      let fnNo := toInt cap1
      if fnNo ≥ 1 ∧ fnNo ≤ 16 then [AutoTypeKey (Key_F fnNo)] else []
    | none => []

/-- The names compared at lines 393-494, in the order of the comparisons, each
with the action appended for it. -/
def keyTable : List (String × AutoTypeAction) :=
  [("tab", AutoTypeKey Key_Tab), ("enter", AutoTypeKey Key_Enter),
   ("space", AutoTypeKey Key_Space), ("up", AutoTypeKey Key_Up),
   ("down", AutoTypeKey Key_Down), ("left", AutoTypeKey Key_Left),
   ("right", AutoTypeKey Key_Right), ("insert", AutoTypeKey Key_Insert),
   ("ins", AutoTypeKey Key_Insert), ("delete", AutoTypeKey Key_Delete),
   ("del", AutoTypeKey Key_Delete), ("home", AutoTypeKey Key_Home),
   ("end", AutoTypeKey Key_End), ("pgup", AutoTypeKey Key_PageUp),
   ("pgdown", AutoTypeKey Key_PageDown), ("backspace", AutoTypeKey Key_Backspace),
   ("bs", AutoTypeKey Key_Backspace), ("bksp", AutoTypeKey Key_Backspace),
   ("break", AutoTypeKey Key_Pause), ("capslock", AutoTypeKey Key_CapsLock),
   ("esc", AutoTypeKey Key_Escape), ("help", AutoTypeKey Key_Help),
   ("numlock", AutoTypeKey Key_NumLock), ("ptrsc", AutoTypeKey Key_Print),
   ("scrolllock", AutoTypeKey Key_ScrollLock), ("add", AutoTypeChar '+'),
   ("+", AutoTypeChar '+'), ("subtract", AutoTypeChar '-'),
   ("multiply", AutoTypeChar '*'), ("divide", AutoTypeChar '/'),
   ("^", AutoTypeChar '^'), ("%", AutoTypeChar '%'), ("~", AutoTypeChar '~'),
   ("(", AutoTypeChar '('), (")", AutoTypeChar ')'),
   ("\x7b", AutoTypeChar '{'), ("\x7d", AutoTypeChar '}')]

/-- Lines 374-391: the repeat pattern and its safety checks. `none` stands for
the early `return list` with the empty list; otherwise the pair is
`(tmplName, num)` as it stands at line 393. -/
def repeatStep (Q : QtText) (tmpl : QString) : Option (QString × Int) :=
  match repeatRegEx Q tmpl with
  | some (cap1, cap2) =>
    let tmplName := cap1
    let num := toInt cap2
    if num = 0 then none
    else if compareCI Q tmplName "delay".toList then
      if num > 10000 then none else some (tmplName, num)
    else if num > 100 then none
    else some (tmplName, num)
  | none => some (tmpl, -1)

/-- Lines 505-511: the loop `for (int i = 1; i < num; i++)` appends a clone of
`list.at(0)` on each of its `num - 1` rounds (none when `num ≤ 1`). -/
def appendClones (list : List AutoTypeAction) (num : Int) : List AutoTypeAction :=
  match list with
  | first :: _ => list ++ List.replicate (num - 1).toNat first
  | [] => list

/-- Lines 528-538: the action for one character of a resolved placeholder. -/
def resolvedCharAction (ch : Char) : AutoTypeAction :=
  if ch = '\n' then AutoTypeKey Key_Enter
  else if ch = '\t' then AutoTypeKey Key_Tab
  else AutoTypeChar ch

/-- Lines 525-541: placeholder resolution through the entry. -/
def placeholderActions (tmplName : QString) (entry : Entry) : List AutoTypeAction :=
  let placeholder := '{' :: (tmplName ++ ['}'])
  let resolved := entry.resolvePlaceholder placeholder
  if placeholder ≠ resolved then resolved.map resolvedCharAction else []

/-- Models `AutoType::createActionFromTemplate(tmpl, entry)`. The member
`m_autoTypeDelay` is an argument and the second component of the result; the
first component is the returned list. -/
def createActionFromTemplate (Q : QtText) (tmpl : QString) (entry : Entry)
    (m_autoTypeDelay : Int) : List AutoTypeAction × Int :=
  match delayRegEx Q tmpl with
  | some cap1 =>
    let num := toInt cap1
    ([], max 0 (min num 10000))
  | none =>
    match repeatStep Q tmpl with
    | none => ([], m_autoTypeDelay)
    | some (tmplName, num) =>
      let list := namedKeyActions Q tmplName
      if list ≠ [] then (appendClones list num, m_autoTypeDelay)
      else
        let list :=
          if compareCI Q tmplName "delay".toList ∧ num > 0 then [AutoTypeDelay num]
          else if compareCI Q tmplName "clearfield".toList then [AutoTypeClearField]
          else []
        if list ≠ [] then (list, m_autoTypeDelay)
        else (placeholderActions tmplName entry, m_autoTypeDelay)

/-! ## `AutoType::parseActions` -/

/-- The local variables of `parseActions` together with the out-parameter
`actions` and the member `m_autoTypeDelay`. -/
structure ParseState where
  tmpl : QString
  inTmpl : Bool
  actions : List AutoTypeAction
  m_autoTypeDelay : Int

/-- Lines 319-346: the scan of the sequence, one character per round. The
Boolean is `false` when the loop left through `return false`; the state is the
one reached at that point. -/
def scanLoop (Q : QtText) (entry : Entry) : QString → ParseState → Bool × ParseState
  | [], st => (true, st)
  | ch :: rest, st =>
    if st.inTmpl then
      if ch = '{' then (false, st)
      else if ch = '}' then
        let r := createActionFromTemplate Q st.tmpl entry st.m_autoTypeDelay
        scanLoop Q entry rest
          { tmpl := [], inTmpl := false, actions := st.actions ++ r.1, m_autoTypeDelay := r.2 }
      else scanLoop Q entry rest { st with tmpl := st.tmpl ++ [ch] }
    else if ch = '{' then scanLoop Q entry rest { st with inTmpl := true }
    else if ch = '}' then (false, st)
    else scanLoop Q entry rest { st with actions := st.actions ++ [AutoTypeChar ch] }

/-- Models `actions.insert(i, a)`: `a` is placed before the element at index `i`. -/
def insertAt (actions : List AutoTypeAction) (i : Nat) (a : AutoTypeAction) :
    List AutoTypeAction :=
  actions.take i ++ a :: actions.drop i

/-- Lines 350-356: the `while` loop over the iterator `i`, held as an index
into `actions` (`actions.end()` is index `actions.length`). Each round
advances `i`; if it is not at the end, a delay is inserted there and `i` is
advanced past the element that followed it. `fuel` bounds the rounds. -/
def delayLoop (delay : Int) : Nat → List AutoTypeAction → Nat → List AutoTypeAction
  | 0, actions, _ => actions
  | fuel + 1, actions, i =>
    if i ≠ actions.length then
      let i := i + 1
      if i ≠ actions.length then
        let actions := insertAt actions i (AutoTypeDelay delay)
        let i := i + 1
        delayLoop delay fuel actions i
      else delayLoop delay fuel actions i
    else actions

/-- The state in which `parseActions` enters its scan (lines 314-316). -/
def initialState (actions : List AutoTypeAction) : ParseState :=
  { tmpl := [], inTmpl := false, actions := actions, m_autoTypeDelay := 0 }

/-- Result of `parseActions`: the returned Boolean, the out-parameter
`actions` and the member `m_autoTypeDelay` after the call. -/
structure ParseResult where
  ok : Bool
  actions : List AutoTypeAction
  m_autoTypeDelay : Int
  deriving DecidableEq, Repr

/-- Models `AutoType::parseActions(sequence, entry, actions)`, called with the list
`actions` as the caller passes it (empty in `performAutoType`). -/
def parseActions (Q : QtText) (sequence : QString) (entry : Entry)
    (actions : List AutoTypeAction) : ParseResult :=
  let r := scanLoop Q entry sequence (initialState actions)
  if r.1 then
    if r.2.m_autoTypeDelay > 0 then
      { ok := true,
        actions := delayLoop r.2.m_autoTypeDelay (r.2.actions.length + 1) r.2.actions 0,
        m_autoTypeDelay := r.2.m_autoTypeDelay }
    else { ok := true, actions := r.2.actions, m_autoTypeDelay := r.2.m_autoTypeDelay }
  else { ok := false, actions := r.2.actions, m_autoTypeDelay := r.2.m_autoTypeDelay }

/-! ## `AutoType::windowMatches` and `AutoType::autoTypeSequence` -/

/-- The collaborators of the selection that live outside the source file:
the regular-expression engine, the `WildcardMatcher` class and the
configuration store. -/
structure Collaborators where
  /-- Models `QRegExp(pattern, Qt::CaseInsensitive, QRegExp::RegExp2).indexIn(title)`,
  as a function of the pattern and the title. -/
  regExpIndexIn : QString → QString → Int
  /-- Models `WildcardMatcher(title).match(pattern)`, as a function of the title and
  the pattern. -/
  wildcardMatch : QString → QString → Bool
  /-- Models `config()->get("AutoTypeEntryTitleMatch").toBool()`. -/
  autoTypeEntryTitleMatch : Bool

/-- Models `s.startsWith("//")`. -/
def startsWithSlashes : QString → Bool
  | '/' :: '/' :: _ => true
  | _ => false

/-- Models `s.endsWith("//")`. -/
def endsWithSlashes (s : QString) : Bool :=
  startsWithSlashes s.reverse

/-- Models `s.mid(position, n)` for `n ≥ 0`. -/
def mid (s : QString) (position n : Nat) : QString :=
  (s.drop position).take n

/-- Models `AutoType::windowMatches(windowTitle, windowPattern)`. -/
def windowMatches (E : Collaborators) (windowTitle windowPattern : QString) : Bool :=
  if startsWithSlashes windowPattern ∧ endsWithSlashes windowPattern
      ∧ windowPattern.length ≥ 4 then
    E.regExpIndexIn (mid windowPattern 2 (windowPattern.length - 4)) windowTitle != -1
  else
    E.wildcardMatch windowTitle windowPattern

/-- Models `a.contains(b, Qt::CaseInsensitive)`. -/
def containsCI (Q : QtText) (a b : QString) : Bool :=
  decide (b.map Q.toCaseFolded <:+: a.map Q.toCaseFolded)

/-- Lines 555-566: the loop over the associations. Returns the value given to
`sequence` at the first association whose window pattern matches, `none` when
the loop ends with `match` still `false`. -/
def associationLoop (E : Collaborators) (entry : Entry) (windowTitle : QString) :
    List Association → Option QString
  | [] => none
  | assoc :: rest =>
    if windowMatches E windowTitle assoc.window then
      if assoc.sequence ≠ [] then some assoc.sequence
      else some entry.defaultAutoTypeSequence
    else associationLoop E entry windowTitle rest

/-- Lines 583-598: the `do ... while` loop over the groups, entered at `group`
with the current `enableSet` and `sequence`. `none` stands for the
`return QString()` at a disabled group; otherwise the result is `sequence` as
it stands when the loop ends. -/
def groupLoop : Group → Bool → QString → Option QString
  | .root enabled dflt, enableSet, sequence =>
    if enableSet = false ∧ enabled = .Disable then none
    else some (if sequence = [] then dflt else sequence)
  | .child enabled dflt parent, enableSet, sequence =>
    if enableSet = false ∧ enabled = .Disable then none
    else
      let enableSet := enableSet || decide (enabled = .Enable)
      let sequence := if sequence = [] then dflt else sequence
      if enableSet = false ∨ sequence = [] then groupLoop parent enableSet sequence
      else some sequence

/-- Lines 600-610: the sequence made up from the user name and the password
when none was found. -/
def synthesizedSequence (entry : Entry) (sequence : QString) : QString :=
  if sequence = [] ∧ (entry.username ≠ [] ∨ entry.password ≠ []) then
    if entry.username = [] then "{PASSWORD}{ENTER}".toList
    else if entry.password = [] then "{USERNAME}{ENTER}".toList
    else "{USERNAME}{TAB}{PASSWORD}{ENTER}".toList
  else sequence

/-- Models `AutoType::autoTypeSequence(entry, windowTitle)`; the default argument of
`windowTitle` is the empty string. -/
def autoTypeSequence (Q : QtText) (E : Collaborators) (entry : Entry)
    (windowTitle : QString) : QString :=
  if entry.autoTypeEnabled = false then []
  else
    let chosen : Option QString :=
      if windowTitle ≠ [] then
        match associationLoop E entry windowTitle entry.autoTypeAssociations with
        | some sequence => some sequence
        | none =>
          if E.autoTypeEntryTitleMatch = true ∧ entry.title ≠ []
              ∧ containsCI Q windowTitle entry.title = true then
            some entry.defaultAutoTypeSequence
          else none
      else some entry.defaultAutoTypeSequence
    match chosen with
    | none => []
    | some sequence =>
      match groupLoop entry.group false sequence with
      | none => []
      | some sequence => synthesizedSequence entry sequence

/-- An entry for examples: auto-type enabled, no fields set, one root group,
and a `resolvePlaceholder` that resolves nothing (returns its argument). -/
def plainEntry : Entry where
  autoTypeEnabled := true
  defaultAutoTypeSequence := []
  autoTypeAssociations := []
  title := []
  username := []
  password := []
  group := .root .Inherit []
  resolvePlaceholder := fun p => p

/-- An entry for examples with the user name `bob`: `resolvePlaceholder`
resolves `{USERNAME}`, in any letter case, to `bob` and returns every other
argument as it is. -/
def bobEntry : Entry where
  autoTypeEnabled := true
  defaultAutoTypeSequence := []
  autoTypeAssociations := []
  title := []
  username := "bob".toList
  password := []
  group := .root .Inherit []
  resolvePlaceholder := fun p =>
    if compareCI asciiText p "{USERNAME}".toList then "bob".toList else p

/-- Modelled from the spec: the class `WildcardMatcher` of
`autotype/WildcardMatcher.h`, which is not part of the source at hand,
described as "a wildcard pattern (glob-like, case-insensitive) matched
against the whole title". The first argument is the pattern, in which `*`
stands for any run of characters. -/
def wildcardMatchModel : QString → QString → Bool
  | [], title => title.isEmpty
  | p :: ps, title =>
    if p = '*' then title.tails.any (fun t => wildcardMatchModel ps t)
    else
      match title with
      | c :: t => (c.toLower == p.toLower) && wildcardMatchModel ps t
      | [] => false

/-- Collaborators for examples: the wildcard matcher modelled above, a
regular-expression engine that finds nothing, and the title-match option
switched off. -/
def sampleCollaborators : Collaborators where
  regExpIndexIn := fun _ _ => -1
  wildcardMatch := fun title pattern => wildcardMatchModel pattern title
  autoTypeEntryTitleMatch := false

/-- An entry for examples with the default sequence
`{USERNAME}{TAB}{PASSWORD}{ENTER}` and one association, of the window pattern
`*Bank*` with an empty sequence. -/
def bankEntry : Entry where
  autoTypeEnabled := true
  defaultAutoTypeSequence := "{USERNAME}{TAB}{PASSWORD}{ENTER}".toList
  autoTypeAssociations := [{ window := "*Bank*".toList, sequence := [] }]
  title := []
  username := []
  password := []
  group := .root .Inherit []
  resolvePlaceholder := fun p => p

/-! ## Vocabulary of the specification -/

/-- Whether the chain of groups above an entry permits auto-type: the first
group, from the immediate group towards the root, whose setting is not
`Inherit` decides, and a chain of `Inherit` up to the root permits it. -/
def chainPermits : Group → Bool
  | .root enabled _ => decide (enabled ≠ .Disable)
  | .child enabled _ parent =>
    match enabled with
    | .Enable => true
    | .Disable => false
    | .Inherit => chainPermits parent


/-- A part of a well-formed sequence: a character outside the braces, or the
text between an opening brace and the closing brace that follows it. -/
inductive Segment where
  | literal (ch : Char)
  | token (tmpl : QString)
  deriving DecidableEq, Repr

/-- The parts of a sequence, read from left to right; the second argument is
the text of the token that is open, if one is. The result is `none` when the
sequence is not well formed: an opening brace inside a token, a closing brace
outside a token, or a token still open at the end. -/
def segmentsFrom : QString → Option QString → Option (List Segment)
  | [], none => some []
  | [], some _ => none
  | ch :: rest, none =>
    if ch = '{' then segmentsFrom rest (some [])
    else if ch = '}' then none
    else (segmentsFrom rest none).map (fun segs => Segment.literal ch :: segs)
  | ch :: rest, some tmpl =>
    if ch = '{' then none
    else if ch = '}' then (segmentsFrom rest none).map (fun segs => Segment.token tmpl :: segs)
    else segmentsFrom rest (some (tmpl ++ [ch]))

/-- The token that is open in a state of the scan, if one is. -/
def openToken (st : ParseState) : Option QString :=
  if st.inTmpl = true then some st.tmpl else none

/-- A sequence is well formed when every opening brace is closed by a later
closing brace, braces are not nested and no closing brace stands alone. -/
def wellFormed (sequence : QString) : Bool :=
  (segmentsFrom sequence none).isSome

/-- The characters of a list of parts that lie outside the tokens. -/
def outsideCharacters : List Segment → QString
  | [] => []
  | Segment.literal ch :: segs => ch :: outsideCharacters segs
  | Segment.token _ :: segs => outsideCharacters segs

/-- The tokens of a list of parts. -/
def tokensOf : List Segment → List QString
  | [] => []
  | Segment.literal _ :: segs => tokensOf segs
  | Segment.token tmpl :: segs => tmpl :: tokensOf segs

/-- The characters of the `AutoTypeChar` actions of a list, in order. -/
def emittedCharacters : List AutoTypeAction → QString
  | [] => []
  | AutoTypeChar ch :: rest => ch :: emittedCharacters rest
  | _ :: rest => emittedCharacters rest

/-- The characters typed for a list of parts: each outside character, and for
each token the characters of the `AutoTypeChar` actions it resolves to. -/
def typedCharacters (Q : QtText) (entry : Entry) : List Segment → QString
  | [] => []
  | Segment.literal ch :: segs => ch :: typedCharacters Q entry segs
  | Segment.token tmpl :: segs =>
    emittedCharacters (createActionFromTemplate Q tmpl entry 0).1 ++ typedCharacters Q entry segs

/-- The pending delay after the tokens of a list of parts, starting from
`delay`: the value, brought into the range from 0 to 10000, that the last
token of the form `delay=N` sets, and `delay` itself when there is none. -/
def pendingDelayAfter (Q : QtText) : List Segment → Int → Int
  | [], delay => delay
  | Segment.literal _ :: segs, delay => pendingDelayAfter Q segs delay
  | Segment.token tmpl :: segs, delay =>
    pendingDelayAfter Q segs
      (match delayRegEx Q tmpl with
        | some cap1 => max 0 (min (toInt cap1) 10000)
        | none => delay)

/-- Lines 552-580 of `autoTypeSequence`: the value of `sequence` before the
walk over the groups, `none` for the `return QString()` taken when a window
title is given and nothing matches it. -/
def candidateSequence (Q : QtText) (E : Collaborators) (entry : Entry)
    (windowTitle : QString) : Option QString :=
  if windowTitle ≠ [] then
    match associationLoop E entry windowTitle entry.autoTypeAssociations with
    | some sequence => some sequence
    | none =>
      if E.autoTypeEntryTitleMatch = true ∧ entry.title ≠ []
          ∧ containsCI Q windowTitle entry.title = true then
        some entry.defaultAutoTypeSequence
      else none
  else some entry.defaultAutoTypeSequence

/-- The default sequence of the nearest group, from the immediate group
towards the root, whose default sequence is not empty; empty when no group
of the chain has one. -/
def nearestDefault : Group → QString
  | .root _ dflt => dflt
  | .child _ dflt parent => if dflt ≠ [] then dflt else nearestDefault parent

/-- The settings of the groups of a chain, the immediate group first and the
root last. -/
def settings : Group → List TriState
  | .root enabled _ => [enabled]
  | .child enabled _ parent => enabled :: settings parent

/-! ## `AutoType::performAutoType` and `AutoType::performGlobalAutoType` -/

/-- A window identifier (`WId`); `0` is the null identifier. -/
abbrev WId := Nat

/-- What the dispatcher reads from outside the source file: the platform
plugin and one configuration entry. -/
structure Platform where
  /-- Result of `m_plugin->activeWindow()`, as a function of the number of
  calls made before it: the successive observations of the active window. -/
  activeWindow : Nat → WId
  /-- Result of `m_plugin->activeWindowTitle()` in `performGlobalAutoType`. -/
  activeWindowTitle : QString
  /-- Value of `config()->get("security/autotypeask").toBool()`. -/
  autotypeask : Bool

/-- The members of `AutoType` that the dispatcher reads and writes, together
with a record of what it did to its collaborators: the number of calls of
`activeWindow()`, the actions handed to the executor by `accept`, the entry
lists given to a selection dialog that was shown, the texts of the message
boxes, and whether the invoking window was put out of the way (minimized, or
on macOS the last active window raised). `Tools::wait` and `processEvents`
touch none of these and are left out. -/
structure AutoTypeState where
  m_inAutoType : Bool
  m_plugin : Bool
  m_autoTypeDelay : Int
  m_windowFromGlobal : WId
  activeWindowCalls : Nat
  executed : List AutoTypeAction
  dialogs : List (List (Entry × QString))
  messages : List QString
  windowHidden : Bool

/-- Lines 169-177: the loop over the compiled actions. Each round asks for the
active window and leaves the loop when it is not `window`; otherwise the
action is handed to the executor. -/
def dispatchLoop (P : Platform) (window : WId) :
    List AutoTypeAction → AutoTypeState → AutoTypeState
  | [], st => st
  | action :: rest, st =>
    if P.activeWindow st.activeWindowCalls ≠ window then
      { st with activeWindowCalls := st.activeWindowCalls + 1 }
    else
      dispatchLoop P window rest
        { st with activeWindowCalls := st.activeWindowCalls + 1,
                  executed := st.executed ++ [action] }

/-- Lines 137-143: the sequence that `performAutoType` parses. -/
def usedSequence (Q : QtText) (E : Collaborators) (entry : Entry)
    (customSequence : QString) : QString :=
  if customSequence = [] then autoTypeSequence Q E entry [] else customSequence

/-- Lines 163-165: the window that the loop compares with; a null `window` is
replaced by the active window. -/
def targetWindow (P : Platform) (window : WId) (st : AutoTypeState) : WId :=
  if window = 0 then P.activeWindow st.activeWindowCalls else window

/-- Lines 163-165: the state after the target window is settled; the call of
`activeWindow()` made for a null `window` is counted. -/
def afterTargetQuery (window : WId) (st : AutoTypeState) : AutoTypeState :=
  if window = 0 then { st with activeWindowCalls := st.activeWindowCalls + 1 } else st

/-- Models `AutoType::performAutoType(entry, hideWindow, customSequence, window)`;
`hideWindow` is `true` for a non-null widget. -/
def performAutoType (Q : QtText) (E : Collaborators) (P : Platform) (entry : Entry)
    (hideWindow : Bool) (customSequence : QString) (window : WId)
    (st : AutoTypeState) : AutoTypeState :=
  if st.m_inAutoType = true ∨ st.m_plugin = false then st
  else
    let r := parseActions Q (usedSequence Q E entry customSequence) entry []
    if r.ok = false then
      { st with m_inAutoType := false, m_autoTypeDelay := r.m_autoTypeDelay }
    else
      let st1 : AutoTypeState :=
        { st with m_inAutoType := true, m_autoTypeDelay := r.m_autoTypeDelay,
                  windowHidden := st.windowHidden || hideWindow }
      let st2 := dispatchLoop P (targetWindow P window st1) r.actions
        (afterTargetQuery window st1)
      { st2 with m_inAutoType := false }

/-- Lines 201-207: the entries of one database whose sequence for the window
title is not empty, each with that sequence. A database is given by the list
`rootGroup()->entriesRecursive()`. -/
def matchesIn (Q : QtText) (E : Collaborators) (windowTitle : QString) :
    List Entry → List (Entry × QString)
  | [] => []
  | entry :: dbEntries =>
    let sequence := autoTypeSequence Q E entry windowTitle
    if sequence ≠ [] then (entry, sequence) :: matchesIn Q E windowTitle dbEntries
    else matchesIn Q E windowTitle dbEntries

/-- Lines 199-208: the matching entries of all databases, in order
(`entryList`, with the sequence that `sequenceHash` holds for each). -/
def globalMatches (Q : QtText) (E : Collaborators) (windowTitle : QString) :
    List (List Entry) → List (Entry × QString)
  | [] => []
  | dbEntries :: dbList =>
    matchesIn Q E windowTitle dbEntries ++ globalMatches Q E windowTitle dbList

/-- The text of the message box of lines 212-214. -/
def noMatchMessage (windowTitle : QString) : QString :=
  "Couldn't find an entry that matches the window title:".toList ++ "\n\n".toList ++ windowTitle

/-- Models `AutoType::performGlobalAutoType(dbList)`. -/
def performGlobalAutoType (Q : QtText) (E : Collaborators) (P : Platform)
    (dbList : List (List Entry)) (st : AutoTypeState) : AutoTypeState :=
  if st.m_inAutoType = true ∨ st.m_plugin = false then st
  else
    let windowTitle := P.activeWindowTitle
    if windowTitle = [] then st
    else
      let st1 : AutoTypeState := { st with m_inAutoType := true }
      let entryList := globalMatches Q E windowTitle dbList
      match entryList with
      | [] =>
        { st1 with m_inAutoType := false,
                   messages := st1.messages ++ [noMatchMessage windowTitle] }
      | first :: others =>
        if (first :: others).length = 1 ∧ P.autotypeask = false then
          performAutoType Q E P first.1 false first.2 0 { st1 with m_inAutoType := false }
        else
          { st1 with m_windowFromGlobal := P.activeWindow st1.activeWindowCalls,
                     activeWindowCalls := st1.activeWindowCalls + 1,
                     dialogs := st1.dialogs ++ [entryList] }

/-- Models `AutoType::performAutoTypeFromGlobal(entry, sequence)`, the slot
called when the selection dialog is confirmed. -/
def performAutoTypeFromGlobal (Q : QtText) (E : Collaborators) (P : Platform)
    (entry : Entry) (sequence : QString) (st : AutoTypeState) : AutoTypeState :=
  performAutoType Q E P entry false sequence st.m_windowFromGlobal
    { st with m_inAutoType := false }

/-- Models `AutoType::resetInAutoType()`, the slot called when the selection
dialog is rejected. -/
def resetInAutoType (st : AutoTypeState) : AutoTypeState :=
  { st with m_inAutoType := false }

/-- A platform for examples: the active window is window 7 at every
observation but the third, where it is window 9; the title of the active
window is `MyBank Login` and no confirmation is asked for. -/
def changingPlatform : Platform where
  activeWindow := fun n => if n = 2 then 9 else 7
  activeWindowTitle := "MyBank Login".toList
  autotypeask := false

/-- A state for examples: idle, plugin loaded, nothing done yet. -/
def idleState : AutoTypeState where
  m_inAutoType := false
  m_plugin := true
  m_autoTypeDelay := 0
  m_windowFromGlobal := 0
  activeWindowCalls := 0
  executed := []
  dialogs := []
  messages := []
  windowHidden := false

/-- The default sequences of the groups of a chain, the immediate group first
and the root last. -/
def defaults : Group → List QString
  | .root _ dflt => [dflt]
  | .child _ dflt parent => dflt :: defaults parent

/-- Collaborators for examples in which a regular expression with an empty
body is found at index 0 of every title, as `QRegExp` finds it, and no other
expression is found; the wildcard matcher is the modelled one and the
title-match option is switched on. -/
def emptyRegExpCollaborators : Collaborators where
  regExpIndexIn := fun pattern _ => if pattern = [] then 0 else -1
  wildcardMatch := fun title pattern => wildcardMatchModel pattern title
  autoTypeEntryTitleMatch := true

/-- An entry for examples like `bankEntry`, with the title `Bank`, a user
name and a password, placed in the given group. -/
def bankEntryIn (group : Group) : Entry where
  autoTypeEnabled := true
  defaultAutoTypeSequence := "{USERNAME}{TAB}{PASSWORD}{ENTER}".toList
  autoTypeAssociations := [{ window := "*Bank*".toList, sequence := [] }]
  title := "Bank".toList
  username := "bob".toList
  password := "secret".toList
  group := group
  resolvePlaceholder := fun p => p

/-- An entry for examples without a default sequence and without
associations, with the given user name and password, placed in the given
group. -/
def bareEntryIn (group : Group) (username password : QString) : Entry where
  autoTypeEnabled := true
  defaultAutoTypeSequence := []
  autoTypeAssociations := []
  title := []
  username := username
  password := password
  group := group
  resolvePlaceholder := fun p => p

/-- Lines 319-346 with a record of the calls of line 328: the result of the
scan as `scanLoop` gives it, and the token buffers handed to
`createActionFromTemplate`, in the order of the calls. -/
def scanLoopCalls (Q : QtText) (entry : Entry) :
    QString → ParseState → (Bool × ParseState) × List QString
  | [], st => ((true, st), [])
  | ch :: rest, st =>
    if st.inTmpl then
      if ch = '{' then ((false, st), [])
      else if ch = '}' then
        let r := createActionFromTemplate Q st.tmpl entry st.m_autoTypeDelay
        let after := scanLoopCalls Q entry rest
          { tmpl := [], inTmpl := false, actions := st.actions ++ r.1, m_autoTypeDelay := r.2 }
        (after.1, st.tmpl :: after.2)
      else scanLoopCalls Q entry rest { st with tmpl := st.tmpl ++ [ch] }
    else if ch = '{' then scanLoopCalls Q entry rest { st with inTmpl := true }
    else if ch = '}' then ((false, st), [])
    else scanLoopCalls Q entry rest { st with actions := st.actions ++ [AutoTypeChar ch] }

/-! ## Facts about the text primitives -/

theorem map_toLower_ascii (Q : QtText) (s : QString)
    (h : isBasicLatin s = true) :
    s.map Q.toLower = s.map Char.toLower := by
  induction s with
  | nil => rfl
  | cons c t ih =>
    simp only [isBasicLatin, List.all_cons, Bool.and_eq_true, decide_eq_true_eq] at h ih
    simp only [List.map_cons, Q.toLower_ascii c h.1, ih h.2]

theorem map_toCaseFolded_ascii (Q : QtText) (s : QString)
    (h : isBasicLatin s = true) :
    s.map Q.toCaseFolded = s.map Char.toLower := by
  induction s with
  | nil => rfl
  | cons c t ih =>
    simp only [isBasicLatin, List.all_cons, Bool.and_eq_true, decide_eq_true_eq] at h ih
    simp only [List.map_cons, Q.toCaseFolded_ascii c h.1, ih h.2]

theorem isBasicLatin_cons (c : Char) (s : QString) :
    isBasicLatin (c :: s) = true ↔ c.toNat < 128 ∧ isBasicLatin s = true := by
  simp [isBasicLatin]

theorem isBasicLatin_append (a b : QString) :
    isBasicLatin (a ++ b) = true ↔ isBasicLatin a = true ∧ isBasicLatin b = true := by
  simp [isBasicLatin]

theorem isBasicLatin_take (n : Nat) (s : QString) (h : isBasicLatin s = true) :
    isBasicLatin (s.take n) = true := by
  rw [← List.take_append_drop n s, isBasicLatin_append] at h
  exact h.1

theorem isBasicLatin_drop (n : Nat) (s : QString) (h : isBasicLatin s = true) :
    isBasicLatin (s.drop n) = true := by
  rw [← List.take_append_drop n s, isBasicLatin_append] at h
  exact h.2

theorem all_isDigit_ascii (Q : QtText) (s : QString) (h : isBasicLatin s = true) :
    s.all Q.isDigit = s.all Char.isDigit := by
  induction s with
  | nil => rfl
  | cons c t ih =>
    rw [isBasicLatin_cons] at h
    simp only [List.all_cons, Q.isDigit_ascii c h.1, ih h.2]

theorem compareCI_ascii (Q : QtText) (a b : QString) (ha : isBasicLatin a = true)
    (hb : isBasicLatin b = true) : compareCI Q a b = compareCI asciiText a b := by
  unfold compareCI
  rw [map_toCaseFolded_ascii Q a ha, map_toCaseFolded_ascii Q b hb]
  rfl

theorem fnRegexp_ascii (Q : QtText) (s : QString) (h : isBasicLatin s = true) :
    fnRegexp Q s = fnRegexp asciiText s := by
  cases s with
  | nil => rfl
  | cons c ds =>
    rw [isBasicLatin_cons] at h
    simp only [fnRegexp, Q.toLower_ascii c h.1, Q.toLower_ascii 'f' (by decide),
      all_isDigit_ascii Q ds h.2]
    rfl

theorem repeatTail_ascii (Q : QtText) (s : QString) (h : isBasicLatin s = true) :
    repeatTail Q s = repeatTail asciiText s := by
  cases s with
  | nil => rfl
  | cons c ds =>
    rw [isBasicLatin_cons] at h
    simp only [repeatTail, all_isDigit_ascii Q ds h.2]
    rfl

theorem repeatRegEx_ascii (Q : QtText) (s : QString) (h : isBasicLatin s = true) :
    repeatRegEx Q s = repeatRegEx asciiText s := by
  induction s with
  | nil => rfl
  | cons c rest ih =>
    rw [isBasicLatin_cons] at h
    simp only [repeatRegEx, ih h.2, repeatTail_ascii Q rest h.2]

theorem repeatTail_some (Q : QtText) (s ds : QString) (h : repeatTail Q s = some ds) :
    s = ' ' :: ds ∧ ds ≠ [] ∧ ds.all Q.isDigit = true := by
  cases s with
  | nil => simp [repeatTail] at h
  | cons c t =>
    simp only [repeatTail] at h
    split_ifs at h with hc
    obtain ⟨h1, h2, h3⟩ := hc
    cases h
    exact ⟨by rw [h1], h2, h3⟩

theorem repeatRegEx_some (Q : QtText) :
    ∀ (s cap1 cap2 : QString), repeatRegEx Q s = some (cap1, cap2) →
      s = cap1 ++ ' ' :: cap2 ∧ cap1 ≠ [] ∧ cap2 ≠ [] ∧ cap2.all Q.isDigit = true := by
  intro s
  induction s with
  | nil => intro cap1 cap2 h; simp [repeatRegEx] at h
  | cons c rest ih =>
    intro cap1 cap2 h
    simp only [repeatRegEx] at h
    cases hr : repeatRegEx Q rest with
    | some p =>
      obtain ⟨a, b⟩ := p
      rw [hr] at h
      simp only [Option.some.injEq, Prod.mk.injEq] at h
      obtain ⟨h1, h2⟩ := h
      subst h1 h2
      obtain ⟨e, _, hb, hd⟩ := ih a b hr
      exact ⟨by rw [e]; rfl, by simp, hb, hd⟩
    | none =>
      rw [hr] at h
      cases ht : repeatTail Q rest with
      | none => rw [ht] at h; simp at h
      | some ds =>
        rw [ht] at h
        simp only [Option.some.injEq, Prod.mk.injEq] at h
        obtain ⟨h1, h2⟩ := h
        subst h1 h2
        obtain ⟨e, hb, hd⟩ := repeatTail_some Q rest ds ht
        exact ⟨by rw [e]; rfl, by simp, hb, hd⟩

theorem delayRegEx_ascii (Q : QtText) (s : QString) (h : isBasicLatin s = true) :
    delayRegEx Q s = delayRegEx asciiText s := by
  simp only [delayRegEx, map_toLower_ascii Q _ (isBasicLatin_take 6 s h),
    map_toLower_ascii Q "delay=".toList (by decide),
    all_isDigit_ascii Q _ (isBasicLatin_drop 6 s h)]
  rfl

theorem namedKeyActions_ascii (Q : QtText) (s : QString) (h : isBasicLatin s = true) :
    namedKeyActions Q s = namedKeyActions asciiText s := by
  have e : ∀ lit : QString, isBasicLatin lit = true →
      compareCI Q s lit = compareCI asciiText s lit :=
    fun lit hl => compareCI_ascii Q s lit h hl
  unfold namedKeyActions
  simp only [e "tab".toList (by decide),
    e "enter".toList (by decide),
    e "space".toList (by decide),
    e "up".toList (by decide),
    e "down".toList (by decide),
    e "left".toList (by decide),
    e "right".toList (by decide),
    e "insert".toList (by decide),
    e "ins".toList (by decide),
    e "delete".toList (by decide),
    e "del".toList (by decide),
    e "home".toList (by decide),
    e "end".toList (by decide),
    e "pgup".toList (by decide),
    e "pgdown".toList (by decide),
    e "backspace".toList (by decide),
    e "bs".toList (by decide),
    e "bksp".toList (by decide),
    e "break".toList (by decide),
    e "capslock".toList (by decide),
    e "esc".toList (by decide),
    e "help".toList (by decide),
    e "numlock".toList (by decide),
    e "ptrsc".toList (by decide),
    e "scrolllock".toList (by decide),
    e "add".toList (by decide),
    e "+".toList (by decide),
    e "subtract".toList (by decide),
    e "multiply".toList (by decide),
    e "divide".toList (by decide),
    e "^".toList (by decide),
    e "%".toList (by decide),
    e "~".toList (by decide),
    e "(".toList (by decide),
    e ")".toList (by decide),
    e ['{'] (by decide), e ['}'] (by decide),
    fnRegexp_ascii Q s h]

theorem repeatStep_ascii (Q : QtText) (s : QString) (h : isBasicLatin s = true) :
    repeatStep Q s = repeatStep asciiText s := by
  unfold repeatStep
  rw [repeatRegEx_ascii Q s h]
  cases hr : repeatRegEx asciiText s with
  | none => rfl
  | some p =>
    obtain ⟨a, b⟩ := p
    have ha : isBasicLatin a = true := by
      have e := (repeatRegEx_some asciiText s a b hr).1
      rw [e, isBasicLatin_append] at h
      exact h.1
    simp only [compareCI_ascii Q a "delay".toList ha (by decide)]

theorem repeatStep_name_ascii (Q : QtText) (s name : QString) (num : Int)
    (h : isBasicLatin s = true) (hr : repeatStep Q s = some (name, num)) :
    isBasicLatin name = true := by
  unfold repeatStep at hr
  cases hm : repeatRegEx Q s with
  | none =>
    rw [hm] at hr
    simp only [Option.some.injEq, Prod.mk.injEq] at hr
    rw [← hr.1]; exact h
  | some p =>
    obtain ⟨a, b⟩ := p
    rw [hm] at hr
    have e := (repeatRegEx_some Q s a b hm).1
    rw [e, isBasicLatin_append] at h
    simp only at hr
    split_ifs at hr <;> simp only [Option.some.injEq, Prod.mk.injEq] at hr <;>
      (rw [← hr.1]; exact h.1)

theorem createActionFromTemplate_ascii (Q : QtText) (tmpl : QString) (entry : Entry)
    (delay : Int) (h : isBasicLatin tmpl = true) :
    createActionFromTemplate Q tmpl entry delay
      = createActionFromTemplate asciiText tmpl entry delay := by
  unfold createActionFromTemplate
  rw [delayRegEx_ascii Q tmpl h, repeatStep_ascii Q tmpl h]
  cases delayRegEx asciiText tmpl with
  | some cap1 => rfl
  | none =>
    cases hr : repeatStep asciiText tmpl with
    | none => rfl
    | some p =>
      obtain ⟨name, num⟩ := p
      have hn := repeatStep_name_ascii asciiText tmpl name num h hr
      simp only [namedKeyActions_ascii Q name hn,
        compareCI_ascii Q name "delay".toList hn (by decide),
        compareCI_ascii Q name "clearfield".toList hn (by decide)]

theorem scanLoop_ascii (Q : QtText) (entry : Entry) (sequence : QString)
    (h : isBasicLatin sequence = true) :
    ∀ st : ParseState, isBasicLatin st.tmpl = true →
      scanLoop Q entry sequence st = scanLoop asciiText entry sequence st := by
  induction sequence with
  | nil => intro st _; rfl
  | cons ch rest ih =>
    intro st hst
    rw [isBasicLatin_cons] at h
    simp only [scanLoop, createActionFromTemplate_ascii Q st.tmpl entry _ hst]
    split_ifs
    · rfl
    · exact ih h.2 _ rfl
    · exact ih h.2 _ (by rw [isBasicLatin_append]; exact ⟨hst, by simp [isBasicLatin, h.1]⟩)
    · exact ih h.2 _ hst
    · rfl
    · exact ih h.2 _ hst

/-- On a sequence of Basic Latin characters the result of `parseActions` does
not depend on how the text primitives treat other characters. -/
theorem parseActions_ascii (Q : QtText) (entry : Entry) (sequence : QString)
    (h : isBasicLatin sequence = true) :
    parseActions Q sequence entry [] = parseActions asciiText sequence entry [] := by
  simp only [parseActions, scanLoop_ascii Q entry sequence h (initialState []) rfl]

/-! ## The delay loop -/

theorem delayLoop_append (delay : Int) :
    ∀ (fuel : Nat) (done todo : List AutoTypeAction), todo.length ≤ fuel →
      delayLoop delay fuel (done ++ todo) done.length
        = done ++ List.intersperse (AutoTypeDelay delay) todo := by
  intro fuel
  induction fuel with
  | zero =>
    intro done todo h
    have : todo = [] := List.length_eq_zero.mp (Nat.le_zero.mp h)
    subst this
    simp [delayLoop]
  | succ fuel ih =>
    intro done todo h
    match todo, h with
    | [], _ => simp [delayLoop]
    | [x], _ =>
      have step := ih (done ++ [x]) [] (Nat.zero_le _)
      simp only [List.append_nil, List.length_append, List.length_singleton,
        List.intersperse_nil] at step
      simp [delayLoop, step]
    | x :: y :: r, h =>
      have hlen : (y :: r).length ≤ fuel := by
        simp only [List.length_cons] at h ⊢
        omega
      have step := ih (done ++ [x, AutoTypeDelay delay]) (y :: r) hlen
      have hins : insertAt (done ++ x :: y :: r) (done.length + 1) (AutoTypeDelay delay)
          = (done ++ [x, AutoTypeDelay delay]) ++ y :: r := by
        have e : done ++ x :: y :: r = (done ++ [x]) ++ y :: r := by simp
        have l : done.length + 1 = (done ++ [x]).length := by simp
        unfold insertAt
        rw [e, l, List.take_left, List.drop_left]
        simp
      have hlen2 : done.length + 1 + 1 = (done ++ [x, AutoTypeDelay delay]).length := by simp
      have hne1 : done.length ≠ (done ++ x :: y :: r).length := by simp
      have hne2 : done.length + 1 ≠ (done ++ x :: y :: r).length := by simp
      rw [delayLoop]
      simp only [hne1, hne2, ne_eq, not_false_eq_true, if_true]
      rw [hins, hlen2, step]
      simp

theorem delayLoop_eq_intersperse (delay : Int) (actions : List AutoTypeAction) :
    delayLoop delay (actions.length + 1) actions 0
      = List.intersperse (AutoTypeDelay delay) actions := by
  have h := delayLoop_append delay (actions.length + 1) [] actions (Nat.le_succ _)
  simpa using h

theorem length_intersperse_actions (sep : AutoTypeAction) :
    ∀ l : List AutoTypeAction, (List.intersperse sep l).length = 2 * l.length - 1
  | [] => rfl
  | [_] => rfl
  | x :: y :: r => by
    have ih := length_intersperse_actions sep (y :: r)
    simp only [List.intersperse_cons₂, List.length_cons] at ih ⊢
    omega

theorem head?_intersperse_actions (sep : AutoTypeAction) :
    ∀ l : List AutoTypeAction, (List.intersperse sep l).head? = l.head?
  | [] => rfl
  | [_] => rfl
  | _ :: _ :: _ => rfl

theorem getLast?_intersperse_actions (sep : AutoTypeAction) :
    ∀ l : List AutoTypeAction, (List.intersperse sep l).getLast? = l.getLast?
  | [] => rfl
  | [_] => rfl
  | x :: y :: r => by
    have ih := getLast?_intersperse_actions sep (y :: r)
    have hne : List.intersperse sep (y :: r) ≠ [] := by
      cases r <;> simp
    rw [List.intersperse_cons₂, List.getLast?_cons_cons]
    obtain ⟨z, zs, hz⟩ := List.exists_cons_of_ne_nil hne
    rw [hz, List.getLast?_cons_cons, ← hz, ih, List.getLast?_cons_cons]

/-! ## The scan -/

theorem scanLoop_append (Q : QtText) (entry : Entry) (before after : QString) :
    ∀ st : ParseState,
      scanLoop Q entry (before ++ after) st
        = if (scanLoop Q entry before st).1 = true then
            scanLoop Q entry after (scanLoop Q entry before st).2
          else scanLoop Q entry before st := by
  induction before with
  | nil => intro st; simp [scanLoop]
  | cons ch rest ih =>
    intro st
    simp only [List.cons_append, scanLoop]
    split_ifs <;> simp_all

theorem parseActions_ok_iff (Q : QtText) (entry : Entry) (sequence : QString) :
    (parseActions Q sequence entry []).ok = (scanLoop Q entry sequence (initialState [])).1 := by
  simp only [parseActions]
  split_ifs <;> simp_all

theorem scanLoop_inToken (Q : QtText) (entry : Entry) :
    ∀ t : QString, (∀ c ∈ t, c ≠ '{' ∧ c ≠ '}') → ∀ st : ParseState, st.inTmpl = true →
      scanLoop Q entry t st = (true, { st with tmpl := st.tmpl ++ t }) := by
  intro t
  induction t with
  | nil => intro _ st _; simp [scanLoop]
  | cons c r ih =>
    intro hb st hst
    have hc := hb c (List.mem_cons_self _ _)
    have hr : ∀ x ∈ r, x ≠ '{' ∧ x ≠ '}' := fun x hx => hb x (List.mem_cons_of_mem _ hx)
    rw [scanLoop]
    simp only [hst, if_true, hc.1, hc.2, if_false]
    rw [ih hr _ rfl]
    simp

theorem scanLoop_ok_congr (Q : QtText) (entry : Entry) :
    ∀ (s : QString) (st st2 : ParseState), st.inTmpl = st2.inTmpl →
      (scanLoop Q entry s st).1 = (scanLoop Q entry s st2).1 := by
  intro s
  induction s with
  | nil => intro st st2 _; rfl
  | cons c r ih =>
    intro st st2 h
    rw [scanLoop, scanLoop]
    rw [← h]
    split_ifs
    · rfl
    · exact ih _ _ rfl
    · exact ih _ _ rfl
    · exact ih _ _ rfl
    · rfl
    · exact ih _ _ rfl

theorem scanLoop_token (Q : QtText) (entry : Entry) (tmpl rest : QString)
    (hb : ∀ c ∈ tmpl, c ≠ '{' ∧ c ≠ '}') (st : ParseState)
    (hlit : st.inTmpl = false) (htm : st.tmpl = []) :
    scanLoop Q entry ('{' :: (tmpl ++ '}' :: rest)) st
      = scanLoop Q entry rest
          { tmpl := [], inTmpl := false,
            actions := st.actions ++ (createActionFromTemplate Q tmpl entry st.m_autoTypeDelay).1,
            m_autoTypeDelay := (createActionFromTemplate Q tmpl entry st.m_autoTypeDelay).2 } := by
  rw [scanLoop]
  simp only [hlit, Bool.false_eq_true, if_false, if_true]
  rw [scanLoop_append, scanLoop_inToken Q entry tmpl hb _ rfl]
  simp only [if_true, htm, List.nil_append]
  rw [scanLoop]
  simp

/-- C1. On every sequence that `parseActions` accepts, with `d` the pending
delay left by the scan: if `d` is positive the returned list is the scanned
list with `AutoTypeDelay d` between every two neighbours, so `n` scanned
actions give `2n - 1` (none for `n = 0`) and the first and the last action are
those of the scan; if `d` is zero the scanned list is returned as it is. The
sequence `{DELAY=50}ab` compiles to `a`, a delay of 50, `b`. -/
theorem parseActions_intersperses_delay (Q : QtText) (entry : Entry) (sequence : QString)
    (hok : (parseActions Q sequence entry []).ok = true) :
    (0 < (scanLoop Q entry sequence (initialState [])).2.m_autoTypeDelay →
      (parseActions Q sequence entry []).actions
          = List.intersperse
              (AutoTypeDelay (scanLoop Q entry sequence (initialState [])).2.m_autoTypeDelay)
              (scanLoop Q entry sequence (initialState [])).2.actions
        ∧ (parseActions Q sequence entry []).actions.length
            = 2 * (scanLoop Q entry sequence (initialState [])).2.actions.length - 1
        ∧ (parseActions Q sequence entry []).actions.head?
            = (scanLoop Q entry sequence (initialState [])).2.actions.head?
        ∧ (parseActions Q sequence entry []).actions.getLast?
            = (scanLoop Q entry sequence (initialState [])).2.actions.getLast?)
    ∧ ((scanLoop Q entry sequence (initialState [])).2.m_autoTypeDelay = 0 →
        (parseActions Q sequence entry []).actions
          = (scanLoop Q entry sequence (initialState [])).2.actions)
    ∧ parseActions Q "{DELAY=50}ab".toList entry []
        = { ok := true,
            actions := [AutoTypeChar 'a', AutoTypeDelay 50, AutoTypeChar 'b'],
            m_autoTypeDelay := 50 } := by
  have hscan : (scanLoop Q entry sequence (initialState [])).1 = true := by
    rw [← parseActions_ok_iff]; exact hok
  refine ⟨fun hd => ?_, fun hd => ?_, ?_⟩
  rotate_left 2
  · rw [parseActions_ascii Q entry _ (by decide)]; rfl
  · have hact : (parseActions Q sequence entry []).actions
        = List.intersperse
            (AutoTypeDelay (scanLoop Q entry sequence (initialState [])).2.m_autoTypeDelay)
            (scanLoop Q entry sequence (initialState [])).2.actions := by
      simp only [parseActions, hscan, hd, if_true]
      exact delayLoop_eq_intersperse _ _
    rw [hact]
    exact ⟨rfl, length_intersperse_actions _ _, head?_intersperse_actions _ _,
      getLast?_intersperse_actions _ _⟩
  · simp [parseActions, hscan, hd]

theorem parseActions_intersperses_delay_witness :
    (parseActions asciiText "{DELAY=50}ab".toList plainEntry []).ok = true
    ∧ (parseActions asciiText "{DELAY=50}ab".toList plainEntry []).actions
        = List.intersperse (AutoTypeDelay 50) [AutoTypeChar 'a', AutoTypeChar 'b'] :=
  ⟨by decide,
    ((parseActions_intersperses_delay asciiText plainEntry "{DELAY=50}ab".toList
      (by decide)).1 (by decide)).1⟩

/-- A token left open at the end of the input is not reported: when the scan
of `before` ends outside a token, the sequence made of `before`, an opening
brace and brace-free text is accepted with the actions of `before`. -/
theorem parseActions_open_token (Q : QtText) (entry : Entry) (before token : QString)
    (hscan : (scanLoop Q entry before (initialState [])).1 = true)
    (hlit : (scanLoop Q entry before (initialState [])).2.inTmpl = false)
    (hb : ∀ c ∈ token, c ≠ '{' ∧ c ≠ '}') :
    (parseActions Q (before ++ '{' :: token) entry []).ok = true
    ∧ (scanLoop Q entry (before ++ '{' :: token) (initialState [])).2.actions
        = (scanLoop Q entry before (initialState [])).2.actions := by
  have h : scanLoop Q entry (before ++ '{' :: token) (initialState [])
      = (true, { (scanLoop Q entry before (initialState [])).2 with
                  inTmpl := true,
                  tmpl := (scanLoop Q entry before (initialState [])).2.tmpl ++ token }) := by
    rw [scanLoop_append, if_pos hscan, scanLoop]
    simp only [hlit, Bool.false_eq_true, if_false, if_true]
    rw [scanLoop_inToken Q entry token hb _ rfl]
  rw [parseActions_ok_iff, h]
  exact ⟨rfl, rfl⟩

/-- C2, at the input `a{b`: the input ends inside a token, yet `parseActions`
returns `true`; the list holds the action for `a` and the open token is
dropped. -/
theorem parseActions_accepts_open_token (Q : QtText) (entry : Entry) :
    parseActions Q "a\x7bb".toList entry []
      = { ok := true, actions := [AutoTypeChar 'a'], m_autoTypeDelay := 0 } := by
  rw [parseActions_ascii Q entry _ (by decide)]; rfl

/-- C3. When the scan reaches a character `ch` without having failed, and `ch`
is a closing brace met outside a token or an opening brace met inside a
token, `parseActions` returns `false` whatever follows `ch`. -/
theorem parseActions_rejects_unbalanced (Q : QtText) (entry : Entry)
    (before after : QString) (ch : Char)
    (hscan : (scanLoop Q entry before (initialState [])).1 = true)
    (hmeet : ((scanLoop Q entry before (initialState [])).2.inTmpl = false ∧ ch = '}')
      ∨ ((scanLoop Q entry before (initialState [])).2.inTmpl = true ∧ ch = '{')) :
    (parseActions Q (before ++ ch :: after) entry []).ok = false := by
  rw [parseActions_ok_iff, scanLoop_append, if_pos hscan]
  rcases hmeet with ⟨hst, hch⟩ | ⟨hst, hch⟩
  · simp [scanLoop, hst, hch]
  · simp [scanLoop, hst, hch]

theorem parseActions_rejects_unbalanced_witness :
    ((scanLoop asciiText plainEntry "a".toList (initialState [])).1 = true
      ∧ (scanLoop asciiText plainEntry "a".toList (initialState [])).2.inTmpl = false
      ∧ (parseActions asciiText "a\x7db".toList plainEntry []).ok = false)
    ∧ ((scanLoop asciiText plainEntry "\x7ba".toList (initialState [])).1 = true
      ∧ (scanLoop asciiText plainEntry "\x7ba".toList (initialState [])).2.inTmpl = true
      ∧ (parseActions asciiText "\x7ba\x7bb\x7d".toList plainEntry []).ok = false) :=
  ⟨⟨by decide, by decide,
      parseActions_rejects_unbalanced asciiText plainEntry "a".toList "b".toList '}'
        (by decide) (Or.inl ⟨by decide, rfl⟩)⟩,
    ⟨by decide, by decide,
      parseActions_rejects_unbalanced asciiText plainEntry "\x7ba".toList "b\x7d".toList '{'
        (by decide) (Or.inr ⟨by decide, rfl⟩)⟩⟩

/-! ## Tokens with a repeat count -/

theorem toNat_lt_of_toLower (c : Char) (h : c.toLower.toNat < 128) : c.toNat < 128 := by
  unfold Char.toLower at h
  simp only at h
  split_ifs at h with hc
  · omega
  · exact h

theorem isBasicLatin_of_toLower (s : QString) (h : isBasicLatin (s.map Char.toLower) = true) :
    isBasicLatin s = true := by
  induction s with
  | nil => rfl
  | cons c t ih =>
    rw [List.map_cons, isBasicLatin_cons] at h
    rw [isBasicLatin_cons]
    exact ⟨toNat_lt_of_toLower c h.1, ih h.2⟩


theorem isBasicLatin_of_digits (ds : QString) (h : ds.all Char.isDigit = true) :
    isBasicLatin ds = true := by
  induction ds with
  | nil => rfl
  | cons c t ih =>
    simp only [List.all_cons, Bool.and_eq_true] at h
    rw [isBasicLatin_cons]
    refine ⟨?_, ih h.2⟩
    have hc := h.1
    simp only [Char.isDigit, Bool.and_eq_true, decide_eq_true_eq] at hc
    have : c.val.toNat ≤ 57 := hc.2
    show c.val.toNat < 128
    omega

theorem space_not_mem_digits (ds : QString) (h : ds.all Char.isDigit = true) : ' ' ∉ ds := by
  intro hm
  have := List.all_eq_true.mp h ' ' hm
  exact absurd this (by decide)

theorem delayRegEx_none_of_space (Q : QtText) (s : QString) (h : ' ' ∈ s) :
    delayRegEx Q s = none := by
  unfold delayRegEx
  rw [if_neg]
  rintro ⟨h1, _, h3⟩
  rw [← List.take_append_drop 6 s, List.mem_append] at h
  rcases h with h | h
  · have hm : Q.toLower ' ' ∈ (s.take 6).map Q.toLower := List.mem_map_of_mem _ h
    rw [h1, map_toLower_ascii Q _ (by decide), Q.toLower_ascii ' ' (by decide)] at hm
    exact absurd hm (by decide)
  · have hd := List.all_eq_true.mp h3 ' ' h
    rw [Q.isDigit_ascii ' ' (by decide)] at hd
    exact absurd hd (by decide)

theorem repeatTail_none_of_no_space (Q : QtText) (s : QString) (h : ' ' ∉ s) :
    repeatTail Q s = none := by
  cases s with
  | nil => rfl
  | cons c t =>
    simp only [repeatTail]
    rw [if_neg]
    rintro ⟨hc, _⟩
    exact h (by rw [hc]; exact List.mem_cons_self _ _)

theorem repeatRegEx_none_of_no_space (Q : QtText) (s : QString) (h : ' ' ∉ s) :
    repeatRegEx Q s = none := by
  induction s with
  | nil => rfl
  | cons c t ih =>
    have ht : ' ' ∉ t := fun hm => h (List.mem_cons_of_mem _ hm)
    simp only [repeatRegEx, ih ht, repeatTail_none_of_no_space Q t ht]

theorem repeatRegEx_cons (Q : QtText) (c : Char) (rest : QString) :
    repeatRegEx Q (c :: rest)
      = match repeatRegEx Q rest with
        | some (cap1, cap2) => some (c :: cap1, cap2)
        | none =>
          match repeatTail Q rest with
          | some cap2 => some ([c], cap2)
          | none => none := by
  rw [repeatRegEx]

theorem repeatRegEx_append (Q : QtText) (ds : QString) (hds : ds ≠ [])
    (hdig : ds.all Q.isDigit = true) (hsp : ' ' ∉ ds) :
    ∀ name : QString, name ≠ [] → repeatRegEx Q (name ++ ' ' :: ds) = some (name, ds) := by
  have htail : repeatTail Q (' ' :: ds) = some ds := by
    simp [repeatTail, hds, hdig]
  have hnone : repeatRegEx Q (' ' :: ds) = none := by
    simp only [repeatRegEx, repeatRegEx_none_of_no_space Q ds hsp,
      repeatTail_none_of_no_space Q ds hsp]
  intro name
  induction name with
  | nil => intro h; exact absurd rfl h
  | cons c t ih =>
    intro _
    cases t with
    | nil =>
      show repeatRegEx Q (c :: ' ' :: ds) = some ([c], ds)
      rw [repeatRegEx_cons, hnone, htail]
    | cons c2 t2 =>
      have := ih (by simp)
      show repeatRegEx Q (c :: (c2 :: t2 ++ ' ' :: ds)) = some (c :: c2 :: t2, ds)
      rw [repeatRegEx_cons, this]

theorem toInt_of_digits (ds : QString) (hds : ds ≠ []) (hdig : ds.all Char.isDigit = true) :
    toInt ds = if decimalValue ds ≤ 2147483647 then (decimalValue ds : Int) else 0 := by
  unfold toInt
  by_cases h : decimalValue ds ≤ 2147483647
  · rw [if_pos ⟨hds, hdig, h⟩, if_pos h]
  · rw [if_neg (fun hh => h hh.2.2), if_neg h]

theorem namedKeyActions_nil (Q : QtText) : namedKeyActions Q [] = [] := by
  simp [namedKeyActions, compareCI, fnRegexp]

theorem repeatStep_append (Q : QtText) (name ds : QString) (hname : name ≠ [])
    (hds : ds ≠ []) (hdig : ds.all Char.isDigit = true) :
    repeatStep Q (name ++ ' ' :: ds)
      = if toInt ds = 0 then none
        else if compareCI Q name "delay".toList = true then
          if toInt ds > 10000 then none else some (name, toInt ds)
        else if toInt ds > 100 then none
        else some (name, toInt ds) := by
  have hQ : ds.all Q.isDigit = true := by
    rw [all_isDigit_ascii Q ds (isBasicLatin_of_digits ds hdig)]; exact hdig
  unfold repeatStep
  rw [repeatRegEx_append Q ds hds hQ (space_not_mem_digits ds hdig) name hname]

theorem appendClones_singleton (a : AutoTypeAction) (n : Nat) (h : 1 ≤ n) :
    appendClones [a] (n : Int) = List.replicate n a := by
  obtain ⟨m, rfl⟩ : ∃ m, n = m + 1 := ⟨n - 1, by omega⟩
  simp only [appendClones, Nat.cast_add, Nat.cast_one, add_sub_cancel_right, Int.toNat_ofNat]
  rw [List.replicate_succ]
  rfl

/-- The resolver on a name that lines 393-503 map to the single action `a`
(a key of the table or a function key), other than `delay`, followed by a
space and digits. -/
theorem createActionFromTemplate_repeat_of_key (Q : QtText) (entry : Entry) (delay : Int)
    (name ds : QString) (a : AutoTypeAction)
    (hname : namedKeyActions Q name = [a])
    (hnd : compareCI Q name "delay".toList = false)
    (hds : ds ≠ []) (hdig : ds.all Char.isDigit = true) :
    createActionFromTemplate Q (name ++ ' ' :: ds) entry delay
        = (if 1 ≤ decimalValue ds ∧ decimalValue ds ≤ 100 then
            List.replicate (decimalValue ds) a
          else [], delay) := by
  have hne : name ≠ [] := by
    rintro rfl
    rw [namedKeyActions_nil] at hname
    exact absurd hname (by simp)
  have hsp : ' ' ∈ name ++ ' ' :: ds := by simp
  unfold createActionFromTemplate
  rw [delayRegEx_none_of_space Q _ hsp, repeatStep_append Q name ds hne hds hdig,
    toInt_of_digits ds hds hdig]
  simp only [hnd, Bool.false_eq_true, if_false]
  by_cases h0 : decimalValue ds = 0
  · simp [h0]
  · by_cases hbig : decimalValue ds ≤ 100
    · have h1 : 1 ≤ decimalValue ds := Nat.one_le_iff_ne_zero.mpr h0
      have hint : decimalValue ds ≤ 2147483647 := by omega
      have hz : ¬ ((decimalValue ds : Int) = 0) := by exact_mod_cast h0
      have hgt : ¬ ((decimalValue ds : Int) > 100) := by
        have : (decimalValue ds : Int) ≤ 100 := by exact_mod_cast hbig
        omega
      simp only [hint, if_true, hz, if_false, hgt, hname, ne_eq, List.cons_ne_self,
        not_false_eq_true, h1, hbig, and_self, appendClones_singleton a _ h1]
    · by_cases hint : decimalValue ds ≤ 2147483647
      · have hz : ¬ ((decimalValue ds : Int) = 0) := by exact_mod_cast h0
        have hgt : (decimalValue ds : Int) > 100 := by
          have : ¬ ((decimalValue ds : Int) ≤ 100) := by exact_mod_cast hbig
          omega
        simp [hint, hz, hgt, hbig]
      · simp [hint, hbig]

theorem keyTable_basicLatin :
    ∀ p ∈ keyTable, isBasicLatin p.1.toList = true := by
  decide

theorem keyTable_not_delay :
    ∀ p ∈ keyTable, (p.1.toList == "delay".toList) = false := by
  decide

theorem namedKeyActions_keyTable (Q : QtText) (lit : String) (a : AutoTypeAction)
    (hlit : (lit, a) ∈ keyTable) (name : QString)
    (hcase : name.map Char.toLower = lit.toList) :
    namedKeyActions Q name = [a] := by
  have hname : isBasicLatin name = true :=
    isBasicLatin_of_toLower name (by rw [hcase]; exact keyTable_basicLatin _ hlit)
  rw [namedKeyActions_ascii Q name hname]
  unfold namedKeyActions
  simp only [compareCI, asciiText, hcase]
  simp only [keyTable, List.mem_cons, List.mem_singleton, List.not_mem_nil, or_false,
    Prod.mk.injEq] at hlit
  repeat (rcases hlit with ⟨rfl, rfl⟩ | hlit; · rfl)
  obtain ⟨rfl, rfl⟩ := hlit
  rfl

theorem compareCI_delay_keyTable (Q : QtText) (lit : String) (a : AutoTypeAction)
    (hlit : (lit, a) ∈ keyTable) (name : QString)
    (hcase : name.map Char.toLower = lit.toList) :
    compareCI Q name "delay".toList = false := by
  have hname : isBasicLatin name = true :=
    isBasicLatin_of_toLower name (by rw [hcase]; exact keyTable_basicLatin _ hlit)
  rw [compareCI_ascii Q name _ hname (by decide)]
  simp only [compareCI, asciiText, hcase]
  exact keyTable_not_delay _ hlit

/-- C4. For every name `lit` of the key and punctuation table, with `a` its
action, written in whatever letter case (`delay` is not among them), and
digits `ds` of value `n`: the token made of the name, a space and the digits
resolves to `n` copies of `a` when `1 ≤ n ≤ 100` and to no action when
`n = 0` or `n > 100`; the pending delay is left as it was. `{TAB 3}` compiles
to three Tab keys, `{TAB 0}` and `{TAB 101}` to nothing. -/
theorem createActionFromTemplate_repeat_key (Q : QtText) (entry : Entry) (delay : Int)
    (lit : String) (a : AutoTypeAction) (name ds : QString)
    (hlit : (lit, a) ∈ keyTable)
    (hcase : name.map Char.toLower = lit.toList)
    (hds : ds ≠ []) (hdig : ds.all Char.isDigit = true) :
    createActionFromTemplate Q (name ++ ' ' :: ds) entry delay
        = (if 1 ≤ decimalValue ds ∧ decimalValue ds ≤ 100 then
            List.replicate (decimalValue ds) a
          else [], delay)
    ∧ parseActions Q "{TAB 3}".toList entry []
        = { ok := true,
            actions := [AutoTypeKey Key_Tab, AutoTypeKey Key_Tab, AutoTypeKey Key_Tab],
            m_autoTypeDelay := 0 }
    ∧ parseActions Q "{TAB 0}".toList entry []
        = { ok := true, actions := [], m_autoTypeDelay := 0 }
    ∧ parseActions Q "{TAB 101}".toList entry []
        = { ok := true, actions := [], m_autoTypeDelay := 0 } := by
  refine ⟨?_, ?_, ?_, ?_⟩
  · exact createActionFromTemplate_repeat_of_key Q entry delay name ds a
      (namedKeyActions_keyTable Q lit a hlit name hcase)
      (compareCI_delay_keyTable Q lit a hlit name hcase) hds hdig
  · rw [parseActions_ascii Q entry _ (by decide)]; rfl
  · rw [parseActions_ascii Q entry _ (by decide)]; rfl
  · rw [parseActions_ascii Q entry _ (by decide)]; rfl

theorem createActionFromTemplate_repeat_key_witness :
    ("tab", AutoTypeKey Key_Tab) ∈ keyTable
    ∧ "TaB".toList.map Char.toLower = "tab".toList
    ∧ createActionFromTemplate asciiText ("TaB".toList ++ ' ' :: "3".toList) plainEntry 0
        = ([AutoTypeKey Key_Tab, AutoTypeKey Key_Tab, AutoTypeKey Key_Tab], 0) :=
  ⟨by decide, by decide,
    (createActionFromTemplate_repeat_key asciiText plainEntry 0 "tab" (AutoTypeKey Key_Tab)
      "TaB".toList "3".toList (by decide) (by decide) (by decide) (by decide)).1⟩

/-! ## The `delay` tokens -/

/-- The resolver on `delay=` followed by digits whose value fits an `int`: no
action, and the pending delay becomes the value capped at 10000. -/
theorem createActionFromTemplate_delay_eq (Q : QtText) (entry : Entry) (delay : Int)
    (name ds : QString) (hcase : name.map Char.toLower = "delay=".toList)
    (hds : ds ≠ []) (hdig : ds.all Char.isDigit = true)
    (hfit : decimalValue ds ≤ 2147483647) :
    createActionFromTemplate Q (name ++ ds) entry delay
      = ([], ((min (decimalValue ds) 10000 : Nat) : Int)) := by
  have hlen : name.length = 6 := by
    have := congrArg List.length hcase
    simpa using this
  have hname : isBasicLatin name = true :=
    isBasicLatin_of_toLower name (by rw [hcase]; decide)
  have hQ : ds.all Q.isDigit = true := by
    rw [all_isDigit_ascii Q ds (isBasicLatin_of_digits ds hdig)]; exact hdig
  have htake : (name ++ ds).take 6 = name := by rw [← hlen, List.take_left]
  have hdrop : (name ++ ds).drop 6 = ds := by rw [← hlen, List.drop_left]
  have hm : delayRegEx Q (name ++ ds) = some ds := by
    unfold delayRegEx
    rw [htake, hdrop, map_toLower_ascii Q name hname, hcase,
      map_toLower_ascii Q "delay=".toList (by decide)]
    rw [if_pos ⟨by decide, hds, hQ⟩]
  unfold createActionFromTemplate
  simp only [hm, toInt_of_digits ds hds hdig, if_pos hfit, Prod.mk.injEq, true_and]
  omega

/-- C5, at the input `delay=2147483648`: the digits do not fit an `int`, the
conversion yields `0`, and the pending delay becomes `0` instead of the cap
of 10000; the sequence `{DELAY=2147483648}ab` is compiled without any delay
between `a` and `b`. -/
theorem createActionFromTemplate_delay_overflow (Q : QtText) (entry : Entry) (delay : Int) :
    createActionFromTemplate Q "delay=2147483648".toList entry delay = ([], 0)
    ∧ decimalValue "2147483648".toList = 2147483648
    ∧ createActionFromTemplate Q "delay=2147483647".toList entry delay = ([], 10000)
    ∧ parseActions Q "{DELAY=2147483648}ab".toList entry []
        = { ok := true, actions := [AutoTypeChar 'a', AutoTypeChar 'b'], m_autoTypeDelay := 0 } := by
  refine ⟨?_, by decide, ?_, ?_⟩
  · rw [createActionFromTemplate_ascii Q _ entry delay (by decide)]; rfl
  · rw [createActionFromTemplate_ascii Q _ entry delay (by decide)]; rfl
  · rw [parseActions_ascii Q entry _ (by decide)]; rfl

theorem namedKeyActions_delay (name : QString)
    (hcase : name.map Char.toLower = "delay".toList) :
    namedKeyActions asciiText name = [] := by
  match name, hcase with
  | c :: t, hcase =>
    have hc : c.toLower = 'd' := by
      have := congrArg List.head? hcase
      simpa using this
    have hf : fnRegexp asciiText (c :: t) = none := by
      simp only [fnRegexp, asciiText, hc]
      rw [if_neg]
      rintro ⟨h, _⟩
      exact absurd h (by decide)
    unfold namedKeyActions
    rw [hf]
    simp only [compareCI, asciiText, hcase]
    decide

/-- C9. For `delay` in whatever letter case and digits `ds` of value `n`: the
token made of the name, a space and the digits resolves to the single action
`AutoTypeDelay n` when `1 ≤ n ≤ 10000` and to no action when `n = 0` or
`n > 10000`; in both cases the pending delay is left as it was. -/
theorem createActionFromTemplate_delay_count (Q : QtText) (entry : Entry) (delay : Int)
    (name ds : QString) (hcase : name.map Char.toLower = "delay".toList)
    (hds : ds ≠ []) (hdig : ds.all Char.isDigit = true) :
    createActionFromTemplate Q (name ++ ' ' :: ds) entry delay
      = (if 1 ≤ decimalValue ds ∧ decimalValue ds ≤ 10000 then
          [AutoTypeDelay (decimalValue ds)]
        else [], delay) := by
  have hne : name ≠ [] := by
    rintro rfl
    exact absurd hcase (by decide)
  have hname : isBasicLatin name = true :=
    isBasicLatin_of_toLower name (by rw [hcase]; decide)
  have hcmp : compareCI Q name "delay".toList = true := by
    rw [compareCI_ascii Q name _ hname (by decide)]
    simp only [compareCI, asciiText, hcase]
    decide
  have hkeys : namedKeyActions Q name = [] := by
    rw [namedKeyActions_ascii Q name hname]
    exact namedKeyActions_delay name hcase
  have hsp : ' ' ∈ name ++ ' ' :: ds := by simp
  unfold createActionFromTemplate
  rw [delayRegEx_none_of_space Q _ hsp, repeatStep_append Q name ds hne hds hdig,
    toInt_of_digits ds hds hdig]
  simp only [hcmp, if_true]
  by_cases h0 : decimalValue ds = 0
  · simp [h0]
  · have h1 : 1 ≤ decimalValue ds := Nat.one_le_iff_ne_zero.mpr h0
    have hz : ¬ ((decimalValue ds : Int) = 0) := by exact_mod_cast h0
    by_cases hbig : decimalValue ds ≤ 10000
    · have hint : decimalValue ds ≤ 2147483647 := by omega
      have hle : (decimalValue ds : Int) ≤ 10000 := by exact_mod_cast hbig
      have hgt : ¬ ((decimalValue ds : Int) > 10000) := by omega
      have hpos : (decimalValue ds : Int) > 0 := by omega
      have hcmp2 : compareCI Q name ['d', 'e', 'l', 'a', 'y'] = true := hcmp
      simp [hint, hz, hgt, hkeys, hcmp2, hpos, h1, hbig]
    · by_cases hint : decimalValue ds ≤ 2147483647
      · have hgt : (decimalValue ds : Int) > 10000 := by
          have : ¬ ((decimalValue ds : Int) ≤ 10000) := by exact_mod_cast hbig
          omega
        simp [hint, hz, hgt, hbig]
      · simp [hint, hbig]

theorem createActionFromTemplate_delay_count_witness :
    "Delay".toList.map Char.toLower = "delay".toList
    ∧ createActionFromTemplate asciiText ("Delay".toList ++ ' ' :: "250".toList) plainEntry 40
        = ([AutoTypeDelay 250], 40) :=
  ⟨by decide,
    createActionFromTemplate_delay_count asciiText plainEntry 40 "Delay".toList "250".toList
      (by decide) (by decide) (by decide)⟩

theorem createActionFromTemplate_rejected_count (Q : QtText) (entry : Entry) (delay : Int)
    (name ds : QString) (hname : name ≠ [])
    (hds : ds ≠ []) (hdig : ds.all Char.isDigit = true)
    (hcount : decimalValue ds = 0
      ∨ (100 < decimalValue ds ∧ compareCI Q name "delay".toList = false)) :
    createActionFromTemplate Q (name ++ ' ' :: ds) entry delay = ([], delay) := by
  have hsp : ' ' ∈ name ++ ' ' :: ds := by simp
  unfold createActionFromTemplate
  rw [delayRegEx_none_of_space Q _ hsp, repeatStep_append Q name ds hname hds hdig,
    toInt_of_digits ds hds hdig]
  rcases hcount with h0 | ⟨hbig, hnd⟩
  · simp [h0]
  · rw [hnd]
    by_cases hint : decimalValue ds ≤ 2147483647
    · have hgt : (decimalValue ds : Int) > 100 := by exact_mod_cast hbig
      have hz : ¬ ((decimalValue ds : Int) = 0) := by omega
      simp [hint, hz, hgt]
    · simp [hint]

theorem createActionFromTemplate_rejected_capture (Q : QtText) (entry : Entry) (delay : Int)
    (tmpl cap1 cap2 : QString) (hm : repeatRegEx Q tmpl = some (cap1, cap2))
    (hcount : toInt cap2 = 0
      ∨ (toInt cap2 > 100 ∧ compareCI Q cap1 "delay".toList = false)) :
    createActionFromTemplate Q tmpl entry delay = ([], delay) := by
  have hsp : ' ' ∈ tmpl := by
    rw [(repeatRegEx_some Q tmpl cap1 cap2 hm).1]
    simp
  have hstep : repeatStep Q tmpl = none := by
    unfold repeatStep
    rw [hm]
    rcases hcount with h0 | ⟨hbig, hnd⟩
    · simp only [h0, if_true]
    · have hz : ¬ (toInt cap2 = 0) := by omega
      simp only [hz, hnd, hbig, if_false, if_true, Bool.false_eq_true]
  unfold createActionFromTemplate
  rw [delayRegEx_none_of_space Q _ hsp, hstep]

/-! ## Placeholders -/

/-- C6, as amended. For a token that is not `delay=N`, that carries no repeat
count or one accepted by the safety checks (`name` is the token without its
count), and whose name is no key of the table, no function key, not `delay`
and not `clearfield`: if `resolvePlaceholder` returns the bracketed name as it
is, the resolver returns no action, and otherwise one action per character of
the returned string, in order, a line feed giving the Enter key, a tabulator
the Tab key and any other character `c` the action `AutoTypeChar c`; the
pending delay is untouched, and the scan goes on after the token as it would
from the start. With an entry that does not resolve it, `{unknown_token}`
compiles to no action. A token made of a non-empty name, a space and digits
whose value is 0, or is above 100 while the name is not `delay` (a value
beyond the range of `int` included), yields no action and leaves the pending
delay as it is, for every entry, whatever its `resolvePlaceholder` returns;
and so does every token matched by the repeat pattern whose count, as
converted at line 377, is 0, or is above 100 while the captured name is not
`delay`. -/
theorem createActionFromTemplate_placeholder (Q : QtText) (entry : Entry) (delay : Int)
    (tmpl name : QString) (num : Int)
    (hdelay : delayRegEx Q tmpl = none)
    (hcount : repeatStep Q tmpl = some (name, num))
    (hkeys : namedKeyActions Q name = [])
    (hnd : compareCI Q name "delay".toList = false)
    (hnc : compareCI Q name "clearfield".toList = false) :
    createActionFromTemplate Q tmpl entry delay
        = (if entry.resolvePlaceholder ('{' :: (name ++ ['}'])) = '{' :: (name ++ ['}']) then []
          else (entry.resolvePlaceholder ('{' :: (name ++ ['}']))).map resolvedCharAction,
          delay)
    ∧ resolvedCharAction '\n' = AutoTypeKey Key_Enter
    ∧ resolvedCharAction '\t' = AutoTypeKey Key_Tab
    ∧ (∀ c : Char, c ≠ '\n' → c ≠ '\t' → resolvedCharAction c = AutoTypeChar c)
    ∧ (∀ rest : QString, (∀ c ∈ tmpl, c ≠ '{' ∧ c ≠ '}') →
        (parseActions Q ('{' :: (tmpl ++ '}' :: rest)) entry []).ok
          = (parseActions Q rest entry []).ok)
    ∧ (entry.resolvePlaceholder "{unknown_token}".toList = "{unknown_token}".toList →
        parseActions Q "{unknown_token}".toList entry []
          = { ok := true, actions := [], m_autoTypeDelay := 0 })
    ∧ (∀ (other : Entry) (pending : Int) (counted ds : QString),
        counted ≠ [] → ds ≠ [] → ds.all Char.isDigit = true →
        (decimalValue ds = 0
          ∨ (100 < decimalValue ds ∧ compareCI Q counted "delay".toList = false)) →
        createActionFromTemplate Q (counted ++ ' ' :: ds) other pending = ([], pending))
    ∧ (∀ (other : Entry) (pending : Int) (token cap1 cap2 : QString),
        repeatRegEx Q token = some (cap1, cap2) →
        (toInt cap2 = 0
          ∨ (toInt cap2 > 100 ∧ compareCI Q cap1 "delay".toList = false)) →
        createActionFromTemplate Q token other pending = ([], pending)) := by
  refine ⟨?_, rfl, rfl, ?_, ?_, ?_,
    fun other pending counted ds h1 h2 h3 h4 =>
      createActionFromTemplate_rejected_count Q other pending counted ds h1 h2 h3 h4,
    fun other pending token cap1 cap2 h1 h2 =>
      createActionFromTemplate_rejected_capture Q other pending token cap1 cap2 h1 h2⟩
  · unfold createActionFromTemplate
    simp only [hdelay, hcount, hkeys, hnd, hnc, placeholderActions]
    by_cases h : entry.resolvePlaceholder ('{' :: (name ++ ['}'])) = '{' :: (name ++ ['}'])
    · simp [h]
    · have h2 : ¬ ('{' :: (name ++ ['}']) = entry.resolvePlaceholder ('{' :: (name ++ ['}']))) :=
        fun e => h e.symm
      simp [h, h2]
  · intro c h1 h2
    simp [resolvedCharAction, h1, h2]
  · intro rest hb
    rw [parseActions_ok_iff, parseActions_ok_iff,
      scanLoop_token Q entry tmpl rest hb (initialState []) rfl rfl]
    exact scanLoop_ok_congr Q entry rest _ _ rfl
  · intro h
    rw [parseActions_ascii Q entry _ (by decide)]
    have e : parseActions asciiText "{unknown_token}".toList entry []
        = { ok := true, actions := placeholderActions "unknown_token".toList entry,
            m_autoTypeDelay := 0 } := rfl
    rw [e]
    have hp : placeholderActions "unknown_token".toList entry = [] := by
      unfold placeholderActions
      have h3 : ('{' :: ("unknown_token".toList ++ ['}'])) = "{unknown_token}".toList := rfl
      simp only [h3, h]
      simp
    rw [hp]

theorem createActionFromTemplate_placeholder_witness :
    delayRegEx asciiText "UserName".toList = none
    ∧ repeatStep asciiText "UserName".toList = some ("UserName".toList, -1)
    ∧ namedKeyActions asciiText "UserName".toList = []
    ∧ compareCI asciiText "UserName".toList "delay".toList = false
    ∧ compareCI asciiText "UserName".toList "clearfield".toList = false
    ∧ createActionFromTemplate asciiText "UserName".toList bobEntry 7
        = ([AutoTypeChar 'b', AutoTypeChar 'o', AutoTypeChar 'b'], 7)
    ∧ bobEntry.resolvePlaceholder "{UserName}".toList = "bob".toList
    ∧ decimalValue "101".toList = 101
    ∧ createActionFromTemplate asciiText ("UserName".toList ++ ' ' :: "101".toList) bobEntry 7
        = ([], 7)
    ∧ createActionFromTemplate asciiText ("UserName".toList ++ ' ' :: "000".toList) bobEntry 7
        = ([], 7)
    ∧ createActionFromTemplate asciiText ("UserName".toList ++ ' ' :: "100".toList) bobEntry 7
        = ([AutoTypeChar 'b', AutoTypeChar 'o', AutoTypeChar 'b'], 7) :=
  ⟨by decide, by decide, by decide, by decide, by decide,
    (createActionFromTemplate_placeholder asciiText bobEntry 7 "UserName".toList
      "UserName".toList (-1) (by decide) (by decide) (by decide) (by decide) (by decide)).1,
    by decide, by decide,
    (createActionFromTemplate_placeholder asciiText bobEntry 7 "UserName".toList
      "UserName".toList (-1) (by decide) (by decide) (by decide) (by decide)
      (by decide)).2.2.2.2.2.2.1 bobEntry 7 "UserName".toList "101".toList
      (by decide) (by decide) (by decide) (Or.inr ⟨by decide, by decide⟩),
    (createActionFromTemplate_placeholder asciiText bobEntry 7 "UserName".toList
      "UserName".toList (-1) (by decide) (by decide) (by decide) (by decide)
      (by decide)).2.2.2.2.2.2.1 bobEntry 7 "UserName".toList "000".toList
      (by decide) (by decide) (by decide) (Or.inl (by decide)),
    by decide⟩

/-- C6, as stated, fails on tokens with a repeat count. The token
`USERNAME 0` is none of the commands and `{USERNAME}` resolves to `bob`, yet
the resolver returns no action; and `{USERNAME 3}` is returned unresolved,
yet the token `USERNAME 3` yields the three actions for `bob`. -/
theorem createActionFromTemplate_placeholder_counterexample :
    delayRegEx asciiText "USERNAME 0".toList = none
    ∧ namedKeyActions asciiText "USERNAME".toList = []
    ∧ namedKeyActions asciiText "USERNAME 0".toList = []
    ∧ compareCI asciiText "USERNAME".toList "delay".toList = false
    ∧ compareCI asciiText "USERNAME".toList "clearfield".toList = false
    ∧ bobEntry.resolvePlaceholder "{USERNAME}".toList = "bob".toList
    ∧ createActionFromTemplate asciiText "USERNAME 0".toList bobEntry 0 = ([], 0)
    ∧ bobEntry.resolvePlaceholder "{USERNAME 3}".toList = "{USERNAME 3}".toList
    ∧ createActionFromTemplate asciiText "USERNAME 3".toList bobEntry 0
        = ([AutoTypeChar 'b', AutoTypeChar 'o', AutoTypeChar 'b'], 0) := by
  decide

/-! ## Characters typed by a well-formed sequence -/

theorem createActionFromTemplate_fst (Q : QtText) (tmpl : QString) (entry : Entry)
    (delay : Int) :
    (createActionFromTemplate Q tmpl entry delay).1
      = (createActionFromTemplate Q tmpl entry 0).1 := by
  unfold createActionFromTemplate
  cases delayRegEx Q tmpl with
  | some cap1 => rfl
  | none =>
    cases repeatStep Q tmpl with
    | none => rfl
    | some p =>
      obtain ⟨name, num⟩ := p
      simp only
      split_ifs <;> rfl

theorem emittedCharacters_append (a b : List AutoTypeAction) :
    emittedCharacters (a ++ b) = emittedCharacters a ++ emittedCharacters b := by
  induction a with
  | nil => rfl
  | cons x r ih =>
    cases x <;> simp [emittedCharacters, ih]

theorem emittedCharacters_intersperse (delay : Int) :
    ∀ l : List AutoTypeAction,
      emittedCharacters (List.intersperse (AutoTypeDelay delay) l) = emittedCharacters l
  | [] => rfl
  | [_] => rfl
  | x :: y :: r => by
    have ih := emittedCharacters_intersperse delay (y :: r)
    rw [List.intersperse_cons₂]
    cases x <;> simp [emittedCharacters, ih]

theorem scanLoop_segments (Q : QtText) (entry : Entry) :
    ∀ (s : QString) (st : ParseState) (segs : List Segment),
      (st.inTmpl = false → st.tmpl = []) →
      segmentsFrom s (openToken st) = some segs →
        (scanLoop Q entry s st).1 = true
        ∧ emittedCharacters (scanLoop Q entry s st).2.actions
            = emittedCharacters st.actions ++ typedCharacters Q entry segs := by
  intro s
  induction s with
  | nil =>
    intro st segs _ h
    obtain ⟨tmpl, inT, acts, d⟩ := st
    cases inT with
    | true => simp [openToken, segmentsFrom] at h
    | false =>
      simp only [openToken, Bool.false_eq_true, if_false, segmentsFrom, Option.some.injEq] at h
      subst h
      simp [scanLoop, typedCharacters]
  | cons ch rest ih =>
    intro st segs hinv h
    obtain ⟨tmpl, inT, acts, d⟩ := st
    cases inT with
    | true =>
      simp only [openToken, if_true] at h
      rw [segmentsFrom] at h
      rw [scanLoop]
      simp only [if_true]
      by_cases h1 : ch = '{'
      · simp [h1] at h
      · by_cases h2 : ch = '}'
        · have hne : ¬ (('}' : Char) = '{') := by decide
          subst h2
          simp only [hne, if_false, if_true] at h ⊢
          cases hsr : segmentsFrom rest none with
          | none => simp [hsr] at h
          | some segs2 =>
            simp only [hsr, Option.map_some', Option.some.injEq] at h
            subst h
            have := ih { tmpl := [], inTmpl := false,
                         actions := acts ++ (createActionFromTemplate Q tmpl entry d).1,
                         m_autoTypeDelay := (createActionFromTemplate Q tmpl entry d).2 }
              segs2 (fun _ => rfl) (by simpa [openToken] using hsr)
            refine ⟨this.1, ?_⟩
            rw [this.2, emittedCharacters_append, createActionFromTemplate_fst]
            simp [typedCharacters]
        · simp only [h1, h2, if_false] at h ⊢
          exact ih { tmpl := tmpl ++ [ch], inTmpl := true, actions := acts,
                     m_autoTypeDelay := d } segs (fun hh => by simp at hh)
            (by simpa [openToken] using h)
    | false =>
      have ht : tmpl = [] := hinv rfl
      subst ht
      simp only [openToken, Bool.false_eq_true, if_false] at h
      rw [segmentsFrom] at h
      rw [scanLoop]
      simp only [Bool.false_eq_true, if_false]
      by_cases h1 : ch = '{'
      · simp only [h1, if_true] at h ⊢
        exact ih { tmpl := [], inTmpl := true, actions := acts, m_autoTypeDelay := d } segs
          (fun hh => by simp at hh) (by simpa [openToken] using h)
      · by_cases h2 : ch = '}'
        · simp [h1, h2] at h
        · simp only [h1, h2, if_false] at h ⊢
          cases hsr : segmentsFrom rest none with
          | none => simp [hsr] at h
          | some segs2 =>
            simp only [hsr, Option.map_some', Option.some.injEq] at h
            subst h
            have := ih { tmpl := [], inTmpl := false, actions := acts ++ [AutoTypeChar ch],
                         m_autoTypeDelay := d }
              segs2 (fun _ => rfl) (by simpa [openToken] using hsr)
            refine ⟨this.1, ?_⟩
            rw [this.2, emittedCharacters_append]
            simp [typedCharacters, emittedCharacters]

theorem typedCharacters_of_no_emit (Q : QtText) (entry : Entry) :
    ∀ segs : List Segment,
      (∀ t ∈ tokensOf segs, emittedCharacters (createActionFromTemplate Q t entry 0).1 = []) →
        typedCharacters Q entry segs = outsideCharacters segs
  | [], _ => rfl
  | Segment.literal ch :: segs, h => by
    simp only [typedCharacters, outsideCharacters]
    rw [typedCharacters_of_no_emit Q entry segs (fun t ht => h t (by simpa [tokensOf] using ht))]
  | Segment.token tmpl :: segs, h => by
    simp only [typedCharacters, outsideCharacters]
    rw [h tmpl (by simp [tokensOf]),
      typedCharacters_of_no_emit Q entry segs
        (fun t ht => h t (by simp [tokensOf, ht]))]
    rfl

theorem parseActions_emitted (Q : QtText) (entry : Entry) (sequence : QString) :
    emittedCharacters (parseActions Q sequence entry []).actions
      = emittedCharacters (scanLoop Q entry sequence (initialState [])).2.actions := by
  simp only [parseActions]
  split_ifs
  · simp only [delayLoop_eq_intersperse, emittedCharacters_intersperse]
  · rfl
  · rfl

/-- C7, as amended. For every well-formed sequence, with `segs` its parts,
`parseActions` succeeds and the characters of the `AutoTypeChar` actions of
its output are, in order, the characters outside the tokens together with, at
the place of each token, the characters of the `AutoTypeChar` actions that
token resolves to; when no token of the sequence resolves to such an action,
they are exactly the characters outside the tokens. -/
theorem parseActions_typed_characters (Q : QtText) (entry : Entry) (sequence : QString)
    (segs : List Segment) (hwf : segmentsFrom sequence none = some segs) :
    (parseActions Q sequence entry []).ok = true
    ∧ emittedCharacters (parseActions Q sequence entry []).actions
        = typedCharacters Q entry segs
    ∧ ((∀ t ∈ tokensOf segs,
          emittedCharacters (createActionFromTemplate Q t entry 0).1 = []) →
        emittedCharacters (parseActions Q sequence entry []).actions
          = outsideCharacters segs) := by
  have h := scanLoop_segments Q entry sequence (initialState []) segs (fun _ => rfl)
    (by simpa [openToken, initialState] using hwf)
  have hem : emittedCharacters (parseActions Q sequence entry []).actions
      = typedCharacters Q entry segs := by
    rw [parseActions_emitted, h.2]
    rfl
  refine ⟨by rw [parseActions_ok_iff]; exact h.1, hem, fun hno => ?_⟩
  rw [hem, typedCharacters_of_no_emit Q entry segs hno]

theorem parseActions_typed_characters_witness :
    segmentsFrom "a{TAB}b{+}{DELAY=5}c".toList none
        = some [Segment.literal 'a', Segment.token "TAB".toList, Segment.literal 'b',
                Segment.token "+".toList, Segment.token "DELAY=5".toList, Segment.literal 'c']
    ∧ emittedCharacters (parseActions asciiText "a{TAB}b{+}{DELAY=5}c".toList plainEntry []).actions
        = "ab+c".toList :=
  ⟨by decide,
    (parseActions_typed_characters asciiText plainEntry "a{TAB}b{+}{DELAY=5}c".toList
      [Segment.literal 'a', Segment.token "TAB".toList, Segment.literal 'b',
        Segment.token "+".toList, Segment.token "DELAY=5".toList, Segment.literal 'c']
      (by decide)).2.1⟩

/-- C7, as stated, fails at the well-formed sequence `a{+}b`: the characters
outside the token are `ab`, while the `AutoTypeChar` actions of the output
spell `a+b`, the token `{+}` being resolved to the character `+`. With an
entry that resolves it, `x{USERNAME}` likewise gives `xbob`. -/
theorem parseActions_typed_characters_counterexample :
    wellFormed "a{+}b".toList = true
    ∧ (segmentsFrom "a{+}b".toList none).map outsideCharacters = some "ab".toList
    ∧ (parseActions asciiText "a{+}b".toList plainEntry []).ok = true
    ∧ emittedCharacters (parseActions asciiText "a{+}b".toList plainEntry []).actions
        = "a+b".toList
    ∧ wellFormed "x{USERNAME}".toList = true
    ∧ (segmentsFrom "x{USERNAME}".toList none).map outsideCharacters = some "x".toList
    ∧ emittedCharacters (parseActions asciiText "x{USERNAME}".toList bobEntry []).actions
        = "xbob".toList := by
  decide

/-! ## The pending delay and the positions of the delays -/

theorem getElem?_intersperse_even (sep : AutoTypeAction) :
    ∀ (l : List AutoTypeAction) (i : Nat), i < l.length →
      (List.intersperse sep l)[2 * i]? = l[i]?
  | [], _, h => by simp at h
  | [x], i, h => by
    have : i = 0 := by simpa using h
    subst this
    rfl
  | x :: y :: r, 0, _ => rfl
  | x :: y :: r, i + 1, h => by
    have ih := getElem?_intersperse_even sep (y :: r) i (by simpa using h)
    have e : 2 * (i + 1) = 2 * i + 1 + 1 := by ring
    rw [List.intersperse_cons₂, e, List.getElem?_cons_succ, List.getElem?_cons_succ, ih,
      List.getElem?_cons_succ]

theorem getElem?_intersperse_odd (sep : AutoTypeAction) :
    ∀ (l : List AutoTypeAction) (i : Nat), i + 1 < l.length →
      (List.intersperse sep l)[2 * i + 1]? = some sep
  | [], _, h => by simp at h
  | [x], _, h => by simp at h
  | x :: y :: r, 0, _ => by simp
  | x :: y :: r, i + 1, h => by
    have ih := getElem?_intersperse_odd sep (y :: r) i (by simpa using h)
    have e : 2 * (i + 1) + 1 = 2 * i + 1 + 1 + 1 := by ring
    rw [List.intersperse_cons₂, e, List.getElem?_cons_succ, List.getElem?_cons_succ, ih]

theorem createActionFromTemplate_snd (Q : QtText) (tmpl : QString) (entry : Entry)
    (delay : Int) :
    (createActionFromTemplate Q tmpl entry delay).2
      = match delayRegEx Q tmpl with
        | some cap1 => max 0 (min (toInt cap1) 10000)
        | none => delay := by
  unfold createActionFromTemplate
  cases delayRegEx Q tmpl with
  | some cap1 => rfl
  | none =>
    cases repeatStep Q tmpl with
    | none => rfl
    | some p =>
      obtain ⟨name, num⟩ := p
      simp only
      split_ifs <;> rfl

theorem createActionFromTemplate_delay_range (Q : QtText) (tmpl : QString) (entry : Entry)
    (delay : Int) (h : 0 ≤ delay ∧ delay ≤ 10000) :
    0 ≤ (createActionFromTemplate Q tmpl entry delay).2
      ∧ (createActionFromTemplate Q tmpl entry delay).2 ≤ 10000 := by
  rw [createActionFromTemplate_snd]
  cases delayRegEx Q tmpl with
  | some cap1 =>
    simp only
    exact ⟨le_max_left _ _, max_le (by norm_num) (min_le_right _ _)⟩
  | none => exact h

theorem scanLoop_delay_range (Q : QtText) (entry : Entry) :
    ∀ (s : QString) (st : ParseState),
      (0 ≤ st.m_autoTypeDelay ∧ st.m_autoTypeDelay ≤ 10000) →
        0 ≤ (scanLoop Q entry s st).2.m_autoTypeDelay
          ∧ (scanLoop Q entry s st).2.m_autoTypeDelay ≤ 10000 := by
  intro s
  induction s with
  | nil => intro st h; exact h
  | cons ch rest ih =>
    intro st h
    rw [scanLoop]
    split_ifs
    · exact h
    · exact ih _ (createActionFromTemplate_delay_range Q st.tmpl entry _ h)
    · exact ih _ h
    · exact ih _ h
    · exact h
    · exact ih _ h

theorem scanLoop_delay_segments (Q : QtText) (entry : Entry) :
    ∀ (s : QString) (st : ParseState) (segs : List Segment),
      (st.inTmpl = false → st.tmpl = []) →
      segmentsFrom s (openToken st) = some segs →
        (scanLoop Q entry s st).2.m_autoTypeDelay = pendingDelayAfter Q segs st.m_autoTypeDelay := by
  intro s
  induction s with
  | nil =>
    intro st segs _ h
    obtain ⟨tmpl, inT, acts, d⟩ := st
    cases inT with
    | true => simp [openToken, segmentsFrom] at h
    | false =>
      simp only [openToken, Bool.false_eq_true, if_false, segmentsFrom, Option.some.injEq] at h
      subst h
      simp [scanLoop, pendingDelayAfter]
  | cons ch rest ih =>
    intro st segs hinv h
    obtain ⟨tmpl, inT, acts, d⟩ := st
    cases inT with
    | true =>
      simp only [openToken, if_true] at h
      rw [segmentsFrom] at h
      rw [scanLoop]
      simp only [if_true]
      by_cases h1 : ch = '{'
      · simp [h1] at h
      · by_cases h2 : ch = '}'
        · have hne : ¬ (('}' : Char) = '{') := by decide
          subst h2
          simp only [hne, if_false, if_true] at h ⊢
          cases hsr : segmentsFrom rest none with
          | none => simp [hsr] at h
          | some segs2 =>
            simp only [hsr, Option.map_some', Option.some.injEq] at h
            subst h
            have := ih { tmpl := [], inTmpl := false,
                         actions := acts ++ (createActionFromTemplate Q tmpl entry d).1,
                         m_autoTypeDelay := (createActionFromTemplate Q tmpl entry d).2 }
              segs2 (fun _ => rfl) (by simpa [openToken] using hsr)
            rw [this, createActionFromTemplate_snd]
            rfl
        · simp only [h1, h2, if_false] at h ⊢
          exact ih { tmpl := tmpl ++ [ch], inTmpl := true, actions := acts,
                     m_autoTypeDelay := d } segs (fun hh => by simp at hh)
            (by simpa [openToken] using h)
    | false =>
      have ht : tmpl = [] := hinv rfl
      subst ht
      simp only [openToken, Bool.false_eq_true, if_false] at h
      rw [segmentsFrom] at h
      rw [scanLoop]
      simp only [Bool.false_eq_true, if_false]
      by_cases h1 : ch = '{'
      · simp only [h1, if_true] at h ⊢
        exact ih { tmpl := [], inTmpl := true, actions := acts, m_autoTypeDelay := d } segs
          (fun hh => by simp at hh) (by simpa [openToken] using h)
      · by_cases h2 : ch = '}'
        · simp [h1, h2] at h
        · simp only [h1, h2, if_false] at h ⊢
          cases hsr : segmentsFrom rest none with
          | none => simp [hsr] at h
          | some segs2 =>
            simp only [hsr, Option.map_some', Option.some.injEq] at h
            subst h
            have := ih { tmpl := [], inTmpl := false, actions := acts ++ [AutoTypeChar ch],
                         m_autoTypeDelay := d }
              segs2 (fun _ => rfl) (by simpa [openToken] using hsr)
            rw [this]
            rfl

/-- C8, as amended. On every sequence that `parseActions` accepts, the
pending delay `d` left by the scan lies between 0 and 10000 and, for a
well-formed sequence, is the value set by its last `delay=N` token (0 when
there is none). If `d` is positive, the actions of the scan stand at the even
positions of the compiled sequence, in order, and `AutoTypeDelay d` stands at
every odd position between two of them: between every two neighbours,
whether produced before or after the token, and neither before the first nor
after the last. If `d` is zero, as after a later `{DELAY=0}`, the compiled
sequence is the scanned one and holds no inserted delay. -/
theorem parseActions_delay_positions (Q : QtText) (entry : Entry) (sequence : QString)
    (hok : (parseActions Q sequence entry []).ok = true) :
    (0 ≤ (scanLoop Q entry sequence (initialState [])).2.m_autoTypeDelay
      ∧ (scanLoop Q entry sequence (initialState [])).2.m_autoTypeDelay ≤ 10000)
    ∧ (∀ segs : List Segment, segmentsFrom sequence none = some segs →
        (scanLoop Q entry sequence (initialState [])).2.m_autoTypeDelay
          = pendingDelayAfter Q segs 0)
    ∧ (0 < (scanLoop Q entry sequence (initialState [])).2.m_autoTypeDelay →
        (parseActions Q sequence entry []).actions.length
            = 2 * (scanLoop Q entry sequence (initialState [])).2.actions.length - 1
        ∧ (∀ i : Nat, i < (scanLoop Q entry sequence (initialState [])).2.actions.length →
            (parseActions Q sequence entry []).actions[2 * i]?
              = (scanLoop Q entry sequence (initialState [])).2.actions[i]?)
        ∧ (∀ i : Nat, i + 1 < (scanLoop Q entry sequence (initialState [])).2.actions.length →
            (parseActions Q sequence entry []).actions[2 * i + 1]?
              = some (AutoTypeDelay
                  (scanLoop Q entry sequence (initialState [])).2.m_autoTypeDelay)))
    ∧ ((scanLoop Q entry sequence (initialState [])).2.m_autoTypeDelay = 0 →
        (parseActions Q sequence entry []).actions
          = (scanLoop Q entry sequence (initialState [])).2.actions) := by
  have hscan : (scanLoop Q entry sequence (initialState [])).1 = true := by
    rw [← parseActions_ok_iff]; exact hok
  refine ⟨scanLoop_delay_range Q entry sequence (initialState []) ⟨le_refl _, by decide⟩,
    fun segs hs => ?_, fun hd => ?_, fun hd => ?_⟩
  · exact scanLoop_delay_segments Q entry sequence (initialState []) segs (fun _ => rfl)
      (by simpa [openToken, initialState] using hs)
  · have hact : (parseActions Q sequence entry []).actions
        = List.intersperse
            (AutoTypeDelay (scanLoop Q entry sequence (initialState [])).2.m_autoTypeDelay)
            (scanLoop Q entry sequence (initialState [])).2.actions := by
      simp only [parseActions, hscan, hd, if_true]
      exact delayLoop_eq_intersperse _ _
    rw [hact]
    exact ⟨length_intersperse_actions _ _, fun i hi => getElem?_intersperse_even _ _ i hi,
      fun i hi => getElem?_intersperse_odd _ _ i hi⟩
  · simp [parseActions, hscan, hd]

theorem parseActions_delay_positions_witness :
    (parseActions asciiText "{DELAY=0}a{DELAY=50}bc".toList plainEntry []).ok = true
    ∧ (parseActions asciiText "{DELAY=0}a{DELAY=50}bc".toList plainEntry []).actions
        = [AutoTypeChar 'a', AutoTypeDelay 50, AutoTypeChar 'b', AutoTypeDelay 50,
            AutoTypeChar 'c']
    ∧ (parseActions asciiText "{DELAY=0}a{DELAY=50}bc".toList plainEntry []).actions[2 * 0 + 1]?
        = some (AutoTypeDelay 50) :=
  ⟨by decide, by decide,
    ((parseActions_delay_positions asciiText plainEntry "{DELAY=0}a{DELAY=50}bc".toList
      (by decide)).2.2.1 (by decide)).2.2 0 (by decide)⟩

/-- C8, as stated, fails at `{DELAY=50}ab{DELAY=0}`: the parse succeeds, the
token `{DELAY=50}` sets a pending delay of 50 that is in force while `a` and
`b` are produced, yet the compiled sequence is `a`, `b` with no delay between
them, the later `{DELAY=0}` having reset the pending delay. -/
theorem parseActions_delay_positions_counterexample :
    (scanLoop asciiText plainEntry "{DELAY=50}ab".toList (initialState [])).2.m_autoTypeDelay = 50
    ∧ parseActions asciiText "{DELAY=50}ab{DELAY=0}".toList plainEntry []
        = { ok := true, actions := [AutoTypeChar 'a', AutoTypeChar 'b'],
            m_autoTypeDelay := 0 } := by
  decide

/-! ## Selection of the sequence by the associations -/

theorem associationLoop_first (E : Collaborators) (entry : Entry) (windowTitle : QString)
    (assoc : Association) (after : List Association)
    (hmatch : windowMatches E windowTitle assoc.window = true) :
    ∀ before : List Association,
      (∀ a ∈ before, windowMatches E windowTitle a.window = false) →
        associationLoop E entry windowTitle (before ++ assoc :: after)
          = some (if assoc.sequence ≠ [] then assoc.sequence
                  else entry.defaultAutoTypeSequence) := by
  intro before
  induction before with
  | nil =>
    intro _
    simp only [List.nil_append, associationLoop, hmatch, if_true]
    split_ifs <;> rfl
  | cons b rest ih =>
    intro hb
    have h1 := hb b (List.mem_cons_self _ _)
    simp only [List.cons_append, associationLoop, h1, Bool.false_eq_true, if_false]
    exact ih (fun a ha => hb a (List.mem_cons_of_mem _ ha))

theorem groupLoop_of_permits :
    ∀ (group : Group) (sequence : QString), sequence ≠ [] → chainPermits group = true →
      groupLoop group false sequence = some sequence := by
  intro group
  induction group with
  | root enabled dflt =>
    intro sequence hs hp
    cases enabled <;> simp_all [groupLoop, chainPermits]
  | child enabled dflt parent ih =>
    intro sequence hs hp
    cases enabled with
    | Inherit =>
      simp only [chainPermits] at hp
      simp [groupLoop, hs, ih sequence hs hp]
    | Enable => simp [groupLoop, hs]
    | Disable => simp [chainPermits] at hp

theorem synthesizedSequence_of_ne_nil (entry : Entry) (sequence : QString)
    (h : sequence ≠ []) : synthesizedSequence entry sequence = sequence := by
  simp [synthesizedSequence, h]

/-- C10. For an enabled entry whose chain of groups permits auto-type and a
non-empty window title: if `assoc` is the first association, in list order,
whose pattern matches the title, `autoTypeSequence` returns the sequence of
`assoc` when that is not empty, and otherwise the default sequence of the
entry when that is not empty; the associations that come after `assoc` have
no influence on the result, whether they match or not. -/
theorem autoTypeSequence_first_association (Q : QtText) (E : Collaborators) (entry : Entry)
    (windowTitle : QString) (before after : List Association) (assoc : Association)
    (hen : entry.autoTypeEnabled = true)
    (hperm : chainPermits entry.group = true)
    (htitle : windowTitle ≠ [])
    (hassoc : entry.autoTypeAssociations = before ++ assoc :: after)
    (hbefore : ∀ a ∈ before, windowMatches E windowTitle a.window = false)
    (hmatch : windowMatches E windowTitle assoc.window = true) :
    (assoc.sequence ≠ [] → autoTypeSequence Q E entry windowTitle = assoc.sequence)
    ∧ (assoc.sequence = [] → entry.defaultAutoTypeSequence ≠ [] →
        autoTypeSequence Q E entry windowTitle = entry.defaultAutoTypeSequence)
    ∧ (∀ later : List Association,
        autoTypeSequence Q E { entry with autoTypeAssociations := before ++ assoc :: later }
            windowTitle
          = autoTypeSequence Q E entry windowTitle) := by
  have hloop := associationLoop_first E entry windowTitle assoc after hmatch before hbefore
  refine ⟨fun hs => ?_, fun hs hd => ?_, fun later => ?_⟩
  · simp only [autoTypeSequence, hen, Bool.true_eq_false, if_false, htitle, ne_eq,
      not_false_eq_true, if_true, hassoc, hloop, hs]
    rw [groupLoop_of_permits entry.group assoc.sequence hs hperm]
    exact synthesizedSequence_of_ne_nil entry _ hs
  · simp only [autoTypeSequence, hen, Bool.true_eq_false, if_false, htitle, ne_eq,
      not_false_eq_true, if_true, hassoc, hloop, hs, not_true_eq_false]
    rw [groupLoop_of_permits entry.group _ hd hperm]
    exact synthesizedSequence_of_ne_nil entry _ hd
  · obtain ⟨en, dflt, assocs, title, user, pass, grp, res⟩ := entry
    simp only at hen hassoc
    subst hen hassoc
    have hloop2 := associationLoop_first E
      { autoTypeEnabled := true, defaultAutoTypeSequence := dflt,
        autoTypeAssociations := before ++ assoc :: later, title := title, username := user,
        password := pass, group := grp, resolvePlaceholder := res }
      windowTitle assoc later hmatch before hbefore
    simp only [autoTypeSequence, Bool.true_eq_false, if_false, htitle, ne_eq,
      not_false_eq_true, if_true, hloop, hloop2]
    rfl

theorem autoTypeSequence_first_association_witness :
    windowMatches sampleCollaborators "MyBank Login".toList "*Bank*".toList = true
    ∧ autoTypeSequence asciiText sampleCollaborators bankEntry "MyBank Login".toList
        = "{USERNAME}{TAB}{PASSWORD}{ENTER}".toList :=
  ⟨by decide,
    (autoTypeSequence_first_association asciiText sampleCollaborators bankEntry
      "MyBank Login".toList [] [] { window := "*Bank*".toList, sequence := [] }
      rfl (by decide) (by decide) rfl (fun _ h => nomatch h) (by decide)).2.1 rfl (by decide)⟩

/-! ## The walk over the groups -/

theorem autoTypeSequence_eq_candidate (Q : QtText) (E : Collaborators) (entry : Entry)
    (windowTitle : QString) :
    autoTypeSequence Q E entry windowTitle
      = if entry.autoTypeEnabled = false then []
        else
          match candidateSequence Q E entry windowTitle with
          | none => []
          | some sequence =>
            match groupLoop entry.group false sequence with
            | none => []
            | some sequence => synthesizedSequence entry sequence := rfl

theorem groupLoop_enabled :
    ∀ (group : Group) (sequence : QString),
      groupLoop group true sequence
        = some (if sequence = [] then nearestDefault group else sequence) := by
  intro group
  induction group with
  | root enabled dflt => intro sequence; simp [groupLoop, nearestDefault]
  | child enabled dflt parent ih =>
    intro sequence
    by_cases hs : sequence = []
    · subst hs
      by_cases hd : dflt = []
      · subst hd
        simp [groupLoop, nearestDefault, ih]
      · simp [groupLoop, nearestDefault, hd]
    · simp [groupLoop, hs]

theorem groupLoop_eq :
    ∀ (group : Group) (sequence : QString),
      groupLoop group false sequence
        = if chainPermits group = true then
            some (if sequence = [] then nearestDefault group else sequence)
          else none := by
  intro group
  induction group with
  | root enabled dflt =>
    intro sequence
    cases enabled <;> simp [groupLoop, chainPermits, nearestDefault]
  | child enabled dflt parent ih =>
    intro sequence
    cases enabled with
    | Disable => simp [groupLoop, chainPermits]
    | Enable =>
      have h := groupLoop_enabled parent (if sequence = [] then dflt else sequence)
      by_cases hs : sequence = []
      · subst hs
        by_cases hd : dflt = []
        · subst hd
          simp [groupLoop, chainPermits, nearestDefault, groupLoop_enabled]
        · simp [groupLoop, chainPermits, nearestDefault, hd]
      · simp [groupLoop, chainPermits, hs]
    | Inherit =>
      by_cases hs : sequence = []
      · subst hs
        by_cases hd : dflt = []
        · subst hd
          simp [groupLoop, chainPermits, nearestDefault, ih]
        · simp [groupLoop, chainPermits, nearestDefault, hd, ih]
      · simp [groupLoop, chainPermits, hs, ih]

theorem autoTypeSequence_of_permits (Q : QtText) (E : Collaborators) (entry : Entry)
    (windowTitle sequence : QString) (hen : entry.autoTypeEnabled = true)
    (hperm : chainPermits entry.group = true)
    (hcand : candidateSequence Q E entry windowTitle = some sequence) :
    autoTypeSequence Q E entry windowTitle
      = synthesizedSequence entry
          (if sequence = [] then nearestDefault entry.group else sequence) := by
  rw [autoTypeSequence_eq_candidate]
  simp only [hcand, groupLoop_eq, hen, hperm, Bool.true_eq_false, if_false, if_true]

theorem autoTypeSequence_of_not_permits (Q : QtText) (E : Collaborators) (entry : Entry)
    (windowTitle : QString) (hperm : chainPermits entry.group = false) :
    autoTypeSequence Q E entry windowTitle = [] := by
  rw [autoTypeSequence_eq_candidate]
  split_ifs
  · rfl
  · cases candidateSequence Q E entry windowTitle with
    | none => rfl
    | some sequence => simp [groupLoop_eq, hperm]

theorem chainPermits_of_inherits :
    ∀ (k : Nat) (group : Group) (rest : List TriState),
      settings group = List.replicate k TriState.Inherit ++ rest →
        (rest = [] → chainPermits group = true)
        ∧ (∀ above, rest = TriState.Enable :: above → chainPermits group = true)
        ∧ (∀ above, rest = TriState.Disable :: above → chainPermits group = false) := by
  intro k
  induction k with
  | zero =>
    intro group rest h
    simp only [List.replicate_zero, List.nil_append] at h
    refine ⟨fun hr => ?_, fun above hr => ?_, fun above hr => ?_⟩
    · subst hr
      cases group <;> simp [settings] at h
    · subst hr
      cases group with
      | root e d => simp only [settings, List.cons.injEq] at h; simp [chainPermits, h.1]
      | child e d p => simp only [settings, List.cons.injEq] at h; simp [chainPermits, h.1]
    · subst hr
      cases group with
      | root e d => simp only [settings, List.cons.injEq] at h; simp [chainPermits, h.1]
      | child e d p => simp only [settings, List.cons.injEq] at h; simp [chainPermits, h.1]
  | succ k ih =>
    intro group rest h
    cases group with
    | root e d =>
      simp only [settings, List.replicate_succ, List.cons_append, List.cons.injEq] at h
      obtain ⟨he, hr⟩ := h
      have hrest : rest = [] := by
        have := congrArg List.length hr
        simp only [List.length_nil, List.length_append, List.length_replicate] at this
        exact List.length_eq_zero.mp (by omega)
      subst hrest
      subst he
      refine ⟨fun _ => by simp [chainPermits], fun above hr2 => by simp at hr2,
        fun above hr2 => by simp at hr2⟩
    | child e d p =>
      simp only [settings, List.replicate_succ, List.cons_append, List.cons.injEq] at h
      obtain ⟨he, hr⟩ := h
      subst he
      obtain ⟨h1, h2, h3⟩ := ih p rest hr
      exact ⟨fun hr2 => by simp [chainPermits, h1 hr2],
        fun above hr2 => by simp [chainPermits, h2 above hr2],
        fun above hr2 => by simp [chainPermits, h3 above hr2]⟩

theorem chainPermits_of_disable_below (above : List TriState) :
    ∀ (below : List TriState) (group : Group),
      settings group = below ++ TriState.Disable :: above → TriState.Enable ∉ below →
        chainPermits group = false := by
  intro below
  induction below with
  | nil =>
    intro group h _
    cases group with
    | root e d => simp only [settings, List.nil_append, List.cons.injEq] at h; simp [chainPermits, h.1]
    | child e d p => simp only [settings, List.nil_append, List.cons.injEq] at h; simp [chainPermits, h.1]
  | cons b bs ih =>
    intro group h hb
    have hb1 : b ≠ TriState.Enable := fun e => hb (by simp [e])
    have hb2 : TriState.Enable ∉ bs := fun hm => hb (List.mem_cons_of_mem _ hm)
    cases group with
    | root e d =>
      simp only [settings, List.cons_append, List.cons.injEq] at h
      have := congrArg List.length h.2
      simp only [List.length_nil, List.length_append, List.length_cons] at this
      omega
    | child e d p =>
      simp only [settings, List.cons_append, List.cons.injEq] at h
      obtain ⟨he, hr⟩ := h
      subst he
      have hp := ih p hr hb2
      cases e with
      | Inherit => simp [chainPermits, hp]
      | Enable => exact absurd rfl hb1
      | Disable => simp [chainPermits]

theorem nearestDefault_of_defaults (dflt : QString) (above : List QString) (hd : dflt ≠ []) :
    ∀ (empties : List QString) (group : Group),
      defaults group = empties ++ dflt :: above → (∀ d ∈ empties, d = []) →
        nearestDefault group = dflt := by
  intro empties
  induction empties with
  | nil =>
    intro group h _
    cases group with
    | root e d => simp only [defaults, List.nil_append, List.cons.injEq] at h; simp [nearestDefault, h.1]
    | child e d p =>
      simp only [defaults, List.nil_append, List.cons.injEq] at h
      simp [nearestDefault, h.1, hd]
  | cons x xs ih =>
    intro group h hx
    have hx1 : x = [] := hx x (List.mem_cons_self _ _)
    have hx2 : ∀ d ∈ xs, d = [] := fun d hm => hx d (List.mem_cons_of_mem _ hm)
    cases group with
    | root e d =>
      simp only [defaults, List.cons_append, List.cons.injEq] at h
      have := congrArg List.length h.2
      simp only [List.length_nil, List.length_append, List.length_cons] at this
      omega
    | child e d p =>
      simp only [defaults, List.cons_append, List.cons.injEq] at h
      obtain ⟨he, hr⟩ := h
      subst he
      subst hx1
      simp [nearestDefault, ih p hr hx2]

theorem associationLoop_none (E : Collaborators) (entry : Entry) (windowTitle : QString) :
    ∀ assocList : List Association,
      (∀ a ∈ assocList, windowMatches E windowTitle a.window = false) →
        associationLoop E entry windowTitle assocList = none := by
  intro assocList
  induction assocList with
  | nil => intro _; rfl
  | cons a rest ih =>
    intro h
    have ha := h a (List.mem_cons_self _ _)
    simp only [associationLoop, ha, Bool.false_eq_true, if_false]
    exact ih (fun x hx => h x (List.mem_cons_of_mem _ hx))

/-! ## Selection of the sequence: no match, groups and made-up sequences -/

/-- C11. For every entry and every non-empty window title that the pattern of
no association matches: unless the title-match option is on, the title of the
entry is not empty and it occurs in the window title without regard to letter
case, `autoTypeSequence` returns the empty string, whatever the default
sequence, the user name, the password and the groups of the entry are. -/
theorem autoTypeSequence_no_association (Q : QtText) (E : Collaborators) (entry : Entry)
    (windowTitle : QString) (htitle : windowTitle ≠ [])
    (hnone : ∀ a ∈ entry.autoTypeAssociations, windowMatches E windowTitle a.window = false)
    (hfall : ¬ (E.autoTypeEntryTitleMatch = true ∧ entry.title ≠ []
      ∧ containsCI Q windowTitle entry.title = true)) :
    autoTypeSequence Q E entry windowTitle = [] := by
  have hcand : candidateSequence Q E entry windowTitle = none := by
    simp only [candidateSequence, htitle, ne_eq, not_false_eq_true, if_true,
      associationLoop_none E entry windowTitle _ hnone]
    rw [if_neg hfall]
  rw [autoTypeSequence_eq_candidate, hcand]
  split_ifs <;> rfl

theorem autoTypeSequence_no_association_witness :
    "Mail - Inbox".toList ≠ []
    ∧ windowMatches emptyRegExpCollaborators "Mail - Inbox".toList "*Bank*".toList = false
    ∧ containsCI asciiText "Mail - Inbox".toList "Bank".toList = false
    ∧ autoTypeSequence asciiText emptyRegExpCollaborators
        (bankEntryIn (.child .Inherit "{PASSWORD}{ENTER}".toList
          (.root .Enable "{USERNAME}{ENTER}".toList)))
        "Mail - Inbox".toList = [] :=
  ⟨by decide, by decide, by decide,
    autoTypeSequence_no_association asciiText emptyRegExpCollaborators
      (bankEntryIn (.child .Inherit "{PASSWORD}{ENTER}".toList
        (.root .Enable "{USERNAME}{ENTER}".toList)))
      "Mail - Inbox".toList (by decide) (by decide) (by decide)⟩

/-- C12. For every entry, with `k` groups set to `Inherit` at the lower end of
its chain of groups: if the next group is set to `Disable`, `autoTypeSequence`
returns the empty string; if the next group is set to `Enable`, whatever the
settings of the groups above it, or if there is no next group, the chain
being `Inherit` up to the root, auto-type is permitted: an enabled entry gets
the sequence that the associations, the defaults and the made-up sequences
give, uncut by the groups. -/
theorem autoTypeSequence_first_setting (Q : QtText) (E : Collaborators) (entry : Entry)
    (windowTitle : QString) (k : Nat) (above : List TriState) :
    (settings entry.group = List.replicate k TriState.Inherit ++ TriState.Disable :: above →
      autoTypeSequence Q E entry windowTitle = [])
    ∧ ((settings entry.group = List.replicate k TriState.Inherit ++ TriState.Enable :: above
          ∨ settings entry.group = List.replicate k TriState.Inherit) →
        entry.autoTypeEnabled = true →
        ∀ sequence : QString, candidateSequence Q E entry windowTitle = some sequence →
          groupLoop entry.group false sequence
              = some (if sequence = [] then nearestDefault entry.group else sequence)
          ∧ autoTypeSequence Q E entry windowTitle
              = synthesizedSequence entry
                  (if sequence = [] then nearestDefault entry.group else sequence)) := by
  refine ⟨fun h => ?_, fun h hen sequence hcand => ?_⟩
  · exact autoTypeSequence_of_not_permits Q E entry windowTitle
      ((chainPermits_of_inherits k entry.group _ h).2.2 above rfl)
  · have hperm : chainPermits entry.group = true := by
      rcases h with h | h
      · exact (chainPermits_of_inherits k entry.group _ h).2.1 above rfl
      · exact (chainPermits_of_inherits k entry.group [] (by simpa using h)).1 rfl
    exact ⟨by rw [groupLoop_eq, if_pos hperm],
      autoTypeSequence_of_permits Q E entry windowTitle sequence hen hperm hcand⟩

theorem autoTypeSequence_first_setting_witness :
    autoTypeSequence asciiText sampleCollaborators
        (bankEntryIn (.child .Inherit [] (.root .Disable []))) "MyBank Login".toList = []
    ∧ autoTypeSequence asciiText sampleCollaborators
        (bankEntryIn (.child .Inherit [] (.child .Enable [] (.root .Disable []))))
        "MyBank Login".toList
        = "{USERNAME}{TAB}{PASSWORD}{ENTER}".toList :=
  ⟨(autoTypeSequence_first_setting asciiText sampleCollaborators
      (bankEntryIn (.child .Inherit [] (.root .Disable []))) "MyBank Login".toList 1 []).1 rfl,
    ((autoTypeSequence_first_setting asciiText sampleCollaborators
      (bankEntryIn (.child .Inherit [] (.child .Enable [] (.root .Disable []))))
      "MyBank Login".toList 1 [TriState.Disable]).2 (Or.inl rfl) rfl
      "{USERNAME}{TAB}{PASSWORD}{ENTER}".toList (by decide)).2⟩

/-- C13, as amended. For every entry and window title: if a group of the chain
is set to `Disable` and no group nearer to the entry is set to `Enable`,
`autoTypeSequence` returns the empty string, even when an association
matches the title and a sequence is at hand. -/
theorem autoTypeSequence_disable_decides (Q : QtText) (E : Collaborators) (entry : Entry)
    (windowTitle : QString) (below above : List TriState)
    (hchain : settings entry.group = below ++ TriState.Disable :: above)
    (hbelow : TriState.Enable ∉ below) :
    autoTypeSequence Q E entry windowTitle = [] :=
  autoTypeSequence_of_not_permits Q E entry windowTitle
    (chainPermits_of_disable_below above below entry.group hchain hbelow)

theorem autoTypeSequence_disable_decides_witness :
    windowMatches sampleCollaborators "MyBank Login".toList "*Bank*".toList = true
    ∧ settings (bankEntryIn (.child .Inherit [] (.child .Disable [] (.root .Enable [])))).group
        = [TriState.Inherit] ++ TriState.Disable :: [TriState.Enable]
    ∧ autoTypeSequence asciiText sampleCollaborators
        (bankEntryIn (.child .Inherit [] (.child .Disable [] (.root .Enable []))))
        "MyBank Login".toList = [] :=
  ⟨by decide, rfl,
    autoTypeSequence_disable_decides asciiText sampleCollaborators
      (bankEntryIn (.child .Inherit [] (.child .Disable [] (.root .Enable []))))
      "MyBank Login".toList [TriState.Inherit] [TriState.Enable] rfl (by decide)⟩

/-- C13, as stated, fails for an entry whose immediate group is set to
`Enable` under a root set to `Disable`: a group of the chain is disabled, the
association `*Bank*` matches the title, and `autoTypeSequence` returns the
default sequence, the setting of the immediate group having ended the
resolution. -/
theorem autoTypeSequence_disable_decides_counterexample :
    TriState.Disable ∈ settings (bankEntryIn (.child .Enable [] (.root .Disable []))).group
    ∧ windowMatches sampleCollaborators "MyBank Login".toList "*Bank*".toList = true
    ∧ autoTypeSequence asciiText sampleCollaborators
        (bankEntryIn (.child .Enable [] (.root .Disable []))) "MyBank Login".toList
        = "{USERNAME}{TAB}{PASSWORD}{ENTER}".toList := by
  decide

/-- C14. For every enabled entry whose chain of groups permits auto-type and
whose sequence is empty after the step of the associations and the default
sequence: if `dflt` is the default sequence of the nearest group that has a
non-empty one, the groups below it having none, `autoTypeSequence` returns
`dflt`, whatever the default sequences and the settings of the groups above
that group are and wherever the resolution of the settings ended. -/
theorem autoTypeSequence_group_default (Q : QtText) (E : Collaborators) (entry : Entry)
    (windowTitle : QString) (empties above : List QString) (dflt : QString)
    (hen : entry.autoTypeEnabled = true)
    (hperm : chainPermits entry.group = true)
    (hcand : candidateSequence Q E entry windowTitle = some [])
    (hchain : defaults entry.group = empties ++ dflt :: above)
    (hempties : ∀ d ∈ empties, d = [])
    (hd : dflt ≠ []) :
    autoTypeSequence Q E entry windowTitle = dflt := by
  rw [autoTypeSequence_of_permits Q E entry windowTitle [] hen hperm hcand, if_pos rfl,
    nearestDefault_of_defaults dflt above hd empties entry.group hchain hempties]
  exact synthesizedSequence_of_ne_nil entry dflt hd

theorem autoTypeSequence_group_default_witness :
    chainPermits (.child .Enable [] (.child .Disable "{PASSWORD}{ENTER}".toList
        (.root .Inherit "{USERNAME}{ENTER}".toList))) = true
    ∧ autoTypeSequence asciiText sampleCollaborators
        (bareEntryIn (.child .Enable [] (.child .Disable "{PASSWORD}{ENTER}".toList
          (.root .Inherit "{USERNAME}{ENTER}".toList))) "bob".toList "secret".toList) []
        = "{PASSWORD}{ENTER}".toList :=
  ⟨by decide,
    autoTypeSequence_group_default asciiText sampleCollaborators
      (bareEntryIn (.child .Enable [] (.child .Disable "{PASSWORD}{ENTER}".toList
        (.root .Inherit "{USERNAME}{ENTER}".toList))) "bob".toList "secret".toList) []
      [[]] ["{USERNAME}{ENTER}".toList] "{PASSWORD}{ENTER}".toList
      rfl (by decide) rfl rfl (by decide) (by decide)⟩

/-- C15. For every enabled entry whose walk over the groups ends without a
disabled group, with `walked` the sequence at its end: if `walked` is empty,
`autoTypeSequence` returns `{USERNAME}{TAB}{PASSWORD}{ENTER}` when the user
name and the password are both non-empty, `{USERNAME}{ENTER}` when only the
user name is, `{PASSWORD}{ENTER}` when only the password is, and the empty
sequence when both are empty; if `walked` is not empty, it is returned as it
is. -/
theorem autoTypeSequence_synthesized (Q : QtText) (E : Collaborators) (entry : Entry)
    (windowTitle sequence walked : QString)
    (hen : entry.autoTypeEnabled = true)
    (hcand : candidateSequence Q E entry windowTitle = some sequence)
    (hwalk : groupLoop entry.group false sequence = some walked) :
    (walked = [] →
      (entry.username ≠ [] → entry.password ≠ [] →
        autoTypeSequence Q E entry windowTitle = "{USERNAME}{TAB}{PASSWORD}{ENTER}".toList)
      ∧ (entry.username ≠ [] → entry.password = [] →
        autoTypeSequence Q E entry windowTitle = "{USERNAME}{ENTER}".toList)
      ∧ (entry.username = [] → entry.password ≠ [] →
        autoTypeSequence Q E entry windowTitle = "{PASSWORD}{ENTER}".toList)
      ∧ (entry.username = [] → entry.password = [] →
        autoTypeSequence Q E entry windowTitle = []))
    ∧ (walked ≠ [] → autoTypeSequence Q E entry windowTitle = walked) := by
  have h : autoTypeSequence Q E entry windowTitle = synthesizedSequence entry walked := by
    rw [autoTypeSequence_eq_candidate]
    simp only [hcand, hwalk, hen, Bool.true_eq_false, if_false]
  rw [h]
  refine ⟨fun hw => ?_, fun hw => synthesizedSequence_of_ne_nil entry walked hw⟩
  subst hw
  refine ⟨fun hu hp => ?_, fun hu hp => ?_, fun hu hp => ?_, fun hu hp => ?_⟩
  · simp [synthesizedSequence, hu, hp]
  · simp [synthesizedSequence, hu, hp]
  · simp [synthesizedSequence, hu, hp]
  · simp [synthesizedSequence, hu, hp]

theorem autoTypeSequence_synthesized_witness :
    candidateSequence asciiText sampleCollaborators
        (bareEntryIn (.root .Inherit []) "bob".toList []) [] = some []
    ∧ groupLoop (.root .Inherit []) false [] = some []
    ∧ autoTypeSequence asciiText sampleCollaborators
        (bareEntryIn (.root .Inherit []) "bob".toList []) [] = "{USERNAME}{ENTER}".toList :=
  ⟨rfl, rfl,
    ((autoTypeSequence_synthesized asciiText sampleCollaborators
      (bareEntryIn (.root .Inherit []) "bob".toList []) [] [] [] rfl rfl rfl).1 rfl).2.1
      (by decide) rfl⟩

/-! ## The window matcher -/

theorem startsWithSlashes_iff (s : QString) :
    startsWithSlashes s = true ↔ ∃ t, s = '/' :: '/' :: t := by
  constructor
  · intro h
    match s, h with
    | a :: b :: t, h =>
      by_cases ha : a = '/'
      · by_cases hb : b = '/'
        · exact ⟨t, by rw [ha, hb]⟩
        · unfold startsWithSlashes at h
          split at h
          · rename_i heq
            simp only [List.cons.injEq] at heq
            exact absurd heq.2.1 hb
          · exact absurd h (by simp)
      · unfold startsWithSlashes at h
        split at h
        · rename_i heq
          simp only [List.cons.injEq] at heq
          exact absurd heq.1 ha
        · exact absurd h (by simp)
    | [a], h => simp [startsWithSlashes] at h
    | [], h => simp [startsWithSlashes] at h
  · rintro ⟨t, rfl⟩
    rfl

theorem regExp_form_iff (windowPattern : QString) :
    (startsWithSlashes windowPattern = true ∧ endsWithSlashes windowPattern = true
        ∧ windowPattern.length ≥ 4)
      ↔ ∃ body, windowPattern = '/' :: '/' :: (body ++ ['/', '/']) := by
  constructor
  · rintro ⟨hs, he, hl⟩
    obtain ⟨rest, hrest⟩ := (startsWithSlashes_iff windowPattern).mp hs
    obtain ⟨t, ht⟩ := (startsWithSlashes_iff windowPattern.reverse).mp he
    have hp : windowPattern = t.reverse ++ ['/', '/'] := by
      have := congrArg List.reverse ht
      simpa using this
    have hlen : t.reverse.length ≥ 2 := by
      have := congrArg List.length hp
      simp only [List.length_append, List.length_cons, List.length_nil] at this
      omega
    match hu : t.reverse, hlen with
    | a :: b :: body, _ =>
      rw [hu, hrest] at hp
      simp only [List.cons_append, List.cons.injEq] at hp
      exact ⟨body, by rw [hrest, hp.2.2]⟩
  · rintro ⟨body, rfl⟩
    refine ⟨rfl, ?_, ?_⟩
    · simp [endsWithSlashes, startsWithSlashes]
    · simp

theorem mid_body (body : QString) :
    mid ('/' :: '/' :: (body ++ ['/', '/'])) 2
        (('/' :: '/' :: (body ++ ['/', '/'])).length - 4) = body := by
  simp [mid]

/-- C16, as amended. For every title and pattern, `windowMatches` treats the
pattern as a regular expression, searched anywhere in the title, exactly when
the pattern starts with `//`, ends with `//` and has at least four
characters, that is when it is `//`, a body and `//`; the body is the pattern
without these delimiters and may be empty, as for the pattern `////`. Every
other pattern, `//` and `///` among them, is handed to the wildcard matcher
with the whole title. -/
theorem windowMatches_dispatch (E : Collaborators) (windowTitle windowPattern : QString) :
    (∀ body : QString, windowPattern = '/' :: '/' :: (body ++ ['/', '/']) →
      windowMatches E windowTitle windowPattern
        = (E.regExpIndexIn body windowTitle != -1))
    ∧ ((¬ ∃ body : QString, windowPattern = '/' :: '/' :: (body ++ ['/', '/'])) →
      windowMatches E windowTitle windowPattern = E.wildcardMatch windowTitle windowPattern)
    ∧ windowMatches E windowTitle "//".toList = E.wildcardMatch windowTitle "//".toList
    ∧ windowMatches E windowTitle "///".toList = E.wildcardMatch windowTitle "///".toList
    ∧ windowMatches E windowTitle "////".toList = (E.regExpIndexIn [] windowTitle != -1) := by
  refine ⟨fun body hb => ?_, fun hno => ?_, rfl, rfl, rfl⟩
  · have hform := (regExp_form_iff windowPattern).mpr ⟨body, hb⟩
    unfold windowMatches
    rw [if_pos hform]
    subst hb
    rw [mid_body]
  · have hform : ¬ (startsWithSlashes windowPattern = true
        ∧ endsWithSlashes windowPattern = true ∧ windowPattern.length ≥ 4) :=
      fun h => hno ((regExp_form_iff windowPattern).mp h)
    unfold windowMatches
    rw [if_neg hform]

theorem windowMatches_dispatch_witness :
    "//^Moz.*fox$//".toList = '/' :: '/' :: ("^Moz.*fox$".toList ++ ['/', '/'])
    ∧ windowMatches sampleCollaborators "Mozilla Firefox".toList "//^Moz.*fox$//".toList
        = (sampleCollaborators.regExpIndexIn "^Moz.*fox$".toList "Mozilla Firefox".toList != -1)
    ∧ (¬ ∃ body : QString, "*Firefox*".toList = '/' :: '/' :: (body ++ ['/', '/']))
    ∧ windowMatches sampleCollaborators "Mozilla Firefox".toList "*Firefox*".toList
        = sampleCollaborators.wildcardMatch "Mozilla Firefox".toList "*Firefox*".toList :=
  ⟨rfl,
    (windowMatches_dispatch sampleCollaborators "Mozilla Firefox".toList
      "//^Moz.*fox$//".toList).1 "^Moz.*fox$".toList rfl,
    fun ⟨_, h⟩ => absurd h (by simp),
    (windowMatches_dispatch sampleCollaborators "Mozilla Firefox".toList
      "*Firefox*".toList).2.1 (fun ⟨_, h⟩ => absurd h (by simp))⟩

/-- C16, as stated, fails at the pattern `////`: it starts and ends with `//`
and the body between the delimiters is empty, yet `windowMatches` hands the
empty body to the regular-expression engine, which finds it in every title,
instead of handing the pattern to the wildcard matcher, which rejects the
title. -/
theorem windowMatches_dispatch_counterexample :
    startsWithSlashes "////".toList = true
    ∧ endsWithSlashes "////".toList = true
    ∧ mid "////".toList 2 ("////".toList.length - 4) = []
    ∧ emptyRegExpCollaborators.wildcardMatch "Mozilla Firefox".toList "////".toList = false
    ∧ windowMatches emptyRegExpCollaborators "Mozilla Firefox".toList "////".toList = true := by
  decide

/-! ## The dispatcher -/

theorem dispatchLoop_fields (P : Platform) (window : WId) :
    ∀ (actions : List AutoTypeAction) (st : AutoTypeState),
      (dispatchLoop P window actions st).m_inAutoType = st.m_inAutoType
      ∧ (dispatchLoop P window actions st).m_plugin = st.m_plugin
      ∧ (dispatchLoop P window actions st).m_autoTypeDelay = st.m_autoTypeDelay
      ∧ (dispatchLoop P window actions st).m_windowFromGlobal = st.m_windowFromGlobal
      ∧ (dispatchLoop P window actions st).dialogs = st.dialogs
      ∧ (dispatchLoop P window actions st).messages = st.messages
      ∧ (dispatchLoop P window actions st).windowHidden = st.windowHidden := by
  intro actions
  induction actions with
  | nil => intro st; exact ⟨rfl, rfl, rfl, rfl, rfl, rfl, rfl⟩
  | cons a rest ih =>
    intro st
    rw [dispatchLoop]
    split_ifs
    · exact ⟨rfl, rfl, rfl, rfl, rfl, rfl, rfl⟩
    · exact ih _

theorem dispatchLoop_while_focused (P : Platform) (window : WId) :
    ∀ (actions : List AutoTypeAction) (st : AutoTypeState),
      ∃ k : Nat, k ≤ actions.length
        ∧ (dispatchLoop P window actions st).executed = st.executed ++ actions.take k
        ∧ (∀ i : Nat, i < k → P.activeWindow (st.activeWindowCalls + i) = window)
        ∧ (k < actions.length → P.activeWindow (st.activeWindowCalls + k) ≠ window) := by
  intro actions
  induction actions with
  | nil =>
    intro st
    exact ⟨0, le_refl _, by simp [dispatchLoop], fun i hi => absurd hi (Nat.not_lt_zero i),
      fun h => absurd h (by simp)⟩
  | cons a rest ih =>
    intro st
    by_cases h : P.activeWindow st.activeWindowCalls ≠ window
    · refine ⟨0, Nat.zero_le _, ?_, fun i hi => absurd hi (Nat.not_lt_zero i), fun _ => h⟩
      rw [dispatchLoop, if_pos h]
      simp
    · have heq : P.activeWindow st.activeWindowCalls = window := not_not.mp h
      obtain ⟨k, hk, hex, hall, hstop⟩ := ih
        { st with activeWindowCalls := st.activeWindowCalls + 1,
                  executed := st.executed ++ [a] }
      refine ⟨k + 1, by simpa using hk, ?_, ?_, ?_⟩
      · rw [dispatchLoop, if_neg h, hex]
        simp
      · intro i hi
        cases i with
        | zero => exact heq
        | succ j =>
          have := hall j (by omega)
          simp only at this
          rw [show st.activeWindowCalls + (j + 1) = st.activeWindowCalls + 1 + j by omega]
          exact this
      · intro hlt
        have := hstop (by simpa using hlt)
        simp only at this
        rw [show st.activeWindowCalls + (k + 1) = st.activeWindowCalls + 1 + k by omega]
        exact this

theorem performAutoType_of_parsed (Q : QtText) (E : Collaborators) (P : Platform)
    (entry : Entry) (hideWindow : Bool) (customSequence : QString) (window : WId)
    (st : AutoTypeState) (hidle : st.m_inAutoType = false) (hplugin : st.m_plugin = true)
    (hok : (parseActions Q (usedSequence Q E entry customSequence) entry []).ok = true) :
    performAutoType Q E P entry hideWindow customSequence window st
      = { dispatchLoop P
            (targetWindow P window
              { st with m_inAutoType := true,
                        m_autoTypeDelay :=
                          (parseActions Q (usedSequence Q E entry customSequence) entry
                            []).m_autoTypeDelay,
                        windowHidden := st.windowHidden || hideWindow })
            (parseActions Q (usedSequence Q E entry customSequence) entry []).actions
            (afterTargetQuery window
              { st with m_inAutoType := true,
                        m_autoTypeDelay :=
                          (parseActions Q (usedSequence Q E entry customSequence) entry
                            []).m_autoTypeDelay,
                        windowHidden := st.windowHidden || hideWindow })
          with m_inAutoType := false } := by
  simp only [performAutoType, hidle, hplugin, hok, Bool.false_eq_true, Bool.true_eq_false,
    or_self, if_false]

theorem performAutoType_of_rejected (Q : QtText) (E : Collaborators) (P : Platform)
    (entry : Entry) (hideWindow : Bool) (customSequence : QString) (window : WId)
    (st : AutoTypeState) (hidle : st.m_inAutoType = false) (hplugin : st.m_plugin = true)
    (hok : (parseActions Q (usedSequence Q E entry customSequence) entry []).ok = false) :
    performAutoType Q E P entry hideWindow customSequence window st
      = { st with m_inAutoType := false,
                  m_autoTypeDelay :=
                    (parseActions Q (usedSequence Q E entry customSequence) entry
                      []).m_autoTypeDelay } := by
  simp only [performAutoType, hidle, hplugin, hok, Bool.false_eq_true, Bool.true_eq_false,
    or_self, if_false, if_true]

theorem afterTargetQuery_fields (window : WId) (st : AutoTypeState) :
    (afterTargetQuery window st).executed = st.executed
    ∧ (afterTargetQuery window st).m_inAutoType = st.m_inAutoType
    ∧ (afterTargetQuery window st).dialogs = st.dialogs
    ∧ (afterTargetQuery window st).messages = st.messages := by
  unfold afterTargetQuery
  split_ifs <;> exact ⟨rfl, rfl, rfl, rfl⟩

theorem performAutoType_fields (Q : QtText) (E : Collaborators) (P : Platform)
    (entry : Entry) (hideWindow : Bool) (customSequence : QString) (window : WId)
    (st : AutoTypeState) :
    (performAutoType Q E P entry hideWindow customSequence window st).dialogs = st.dialogs
    ∧ (performAutoType Q E P entry hideWindow customSequence window st).messages
        = st.messages := by
  simp only [performAutoType]
  split_ifs
  · exact ⟨rfl, rfl⟩
  · exact ⟨rfl, rfl⟩
  · have h := dispatchLoop_fields P
      (targetWindow P window
        { st with m_inAutoType := true,
                  m_autoTypeDelay :=
                    (parseActions Q (usedSequence Q E entry customSequence) entry
                      []).m_autoTypeDelay,
                  windowHidden := st.windowHidden || hideWindow })
      (parseActions Q (usedSequence Q E entry customSequence) entry []).actions
      (afterTargetQuery window
        { st with m_inAutoType := true,
                  m_autoTypeDelay :=
                    (parseActions Q (usedSequence Q E entry customSequence) entry
                      []).m_autoTypeDelay,
                  windowHidden := st.windowHidden || hideWindow })
    have h2 := afterTargetQuery_fields window
        { st with m_inAutoType := true,
                  m_autoTypeDelay :=
                    (parseActions Q (usedSequence Q E entry customSequence) entry
                      []).m_autoTypeDelay,
                  windowHidden := st.windowHidden || hideWindow }
    exact ⟨by rw [h.2.2.2.2.1, h2.2.2.1], by rw [h.2.2.2.2.2.1, h2.2.2.2]⟩

theorem performAutoType_clears_flag_aux (Q : QtText) (E : Collaborators) (P : Platform)
    (entry : Entry) (hideWindow : Bool) (customSequence : QString) (window : WId)
    (st : AutoTypeState) (hidle : st.m_inAutoType = false) (hplugin : st.m_plugin = true) :
    (performAutoType Q E P entry hideWindow customSequence window st).m_inAutoType
      = false := by
  cases hok : (parseActions Q (usedSequence Q E entry customSequence) entry []).ok with
  | false =>
    rw [performAutoType_of_rejected Q E P entry hideWindow customSequence window st hidle
      hplugin hok]
  | true =>
    rw [performAutoType_of_parsed Q E P entry hideWindow customSequence window st hidle
      hplugin hok]

/-- C17. For every call of `performAutoType` that starts idle with a plugin
loaded and whose sequence is compiled to the list `actions`, and for every
course of the observations of the active window: the actions handed to the
executor are the first `k` of `actions`, added to those handed over before,
where `k` is the greatest number such that the window observed before each of
the first `k` actions is the target window. After an observation that differs
no further action is executed, whatever is observed later. In a loop over
three actions where the window differs before the second, only the first is
executed. -/
theorem performAutoType_executes_while_focused (Q : QtText) (E : Collaborators) (P : Platform)
    (entry : Entry) (hideWindow : Bool) (customSequence : QString) (window : WId)
    (st : AutoTypeState) (hidle : st.m_inAutoType = false) (hplugin : st.m_plugin = true)
    (hok : (parseActions Q (usedSequence Q E entry customSequence) entry []).ok = true) :
    (∃ k : Nat,
      k ≤ (parseActions Q (usedSequence Q E entry customSequence) entry []).actions.length
      ∧ (performAutoType Q E P entry hideWindow customSequence window st).executed
          = st.executed
            ++ (parseActions Q (usedSequence Q E entry customSequence) entry []).actions.take k
      ∧ (∀ i : Nat, i < k →
          P.activeWindow ((afterTargetQuery window st).activeWindowCalls + i)
            = targetWindow P window st)
      ∧ (k < (parseActions Q (usedSequence Q E entry customSequence) entry []).actions.length →
          P.activeWindow ((afterTargetQuery window st).activeWindowCalls + k)
            ≠ targetWindow P window st)
      ∧ (∀ j : Nat,
          j ≤ (parseActions Q (usedSequence Q E entry customSequence) entry []).actions.length →
          (∀ i : Nat, i < j →
            P.activeWindow ((afterTargetQuery window st).activeWindowCalls + i)
              = targetWindow P window st) →
          j ≤ k))
    ∧ (∀ (a b c : AutoTypeAction) (st0 : AutoTypeState) (target : WId),
        P.activeWindow st0.activeWindowCalls = target →
        P.activeWindow (st0.activeWindowCalls + 1) ≠ target →
        (dispatchLoop P target [a, b, c] st0).executed = st0.executed ++ [a]) := by
  refine ⟨?_, fun a b c st0 target h1 h2 => ?_⟩
  · rw [performAutoType_of_parsed Q E P entry hideWindow customSequence window st hidle
      hplugin hok]
    obtain ⟨k, hk, hex, hall, hstop⟩ := dispatchLoop_while_focused P
      (targetWindow P window
        { st with m_inAutoType := true,
                  m_autoTypeDelay :=
                    (parseActions Q (usedSequence Q E entry customSequence) entry
                      []).m_autoTypeDelay,
                  windowHidden := st.windowHidden || hideWindow })
      (parseActions Q (usedSequence Q E entry customSequence) entry []).actions
      (afterTargetQuery window
        { st with m_inAutoType := true,
                  m_autoTypeDelay :=
                    (parseActions Q (usedSequence Q E entry customSequence) entry
                      []).m_autoTypeDelay,
                  windowHidden := st.windowHidden || hideWindow })
    have hcalls : (afterTargetQuery window
        { st with m_inAutoType := true,
                  m_autoTypeDelay :=
                    (parseActions Q (usedSequence Q E entry customSequence) entry
                      []).m_autoTypeDelay,
                  windowHidden := st.windowHidden || hideWindow }).activeWindowCalls
        = (afterTargetQuery window st).activeWindowCalls := by
      unfold afterTargetQuery
      split_ifs <;> rfl
    have hexec := (afterTargetQuery_fields window
        { st with m_inAutoType := true,
                  m_autoTypeDelay :=
                    (parseActions Q (usedSequence Q E entry customSequence) entry
                      []).m_autoTypeDelay,
                  windowHidden := st.windowHidden || hideWindow }).1
    have htarget : targetWindow P window
        { st with m_inAutoType := true,
                  m_autoTypeDelay :=
                    (parseActions Q (usedSequence Q E entry customSequence) entry
                      []).m_autoTypeDelay,
                  windowHidden := st.windowHidden || hideWindow }
        = targetWindow P window st := rfl
    rw [hcalls, htarget] at hall hstop
    rw [hexec] at hex
    refine ⟨k, hk, hex, hall, hstop, fun j hj hjall => ?_⟩
    by_contra hlt
    have hkj : k < j := Nat.lt_of_not_le hlt
    exact hstop (Nat.lt_of_lt_of_le hkj hj) (hjall k hkj)
  · simp [dispatchLoop, h1, h2]

theorem performAutoType_executes_while_focused_witness :
    idleState.m_inAutoType = false
    ∧ idleState.m_plugin = true
    ∧ parseActions asciiText (usedSequence asciiText sampleCollaborators plainEntry "abc".toList)
        plainEntry []
        = { ok := true, actions := [AutoTypeChar 'a', AutoTypeChar 'b', AutoTypeChar 'c'],
            m_autoTypeDelay := 0 }
    ∧ (dispatchLoop changingPlatform 7 [AutoTypeChar 'a', AutoTypeChar 'b', AutoTypeChar 'c']
        { idleState with activeWindowCalls := 1 }).executed = [] ++ [AutoTypeChar 'a']
    ∧ (performAutoType asciiText sampleCollaborators changingPlatform plainEntry false
        "abc".toList 0 idleState).executed = [AutoTypeChar 'a']
    ∧ (performAutoType asciiText sampleCollaborators changingPlatform plainEntry false
        "abc".toList 0 idleState).m_inAutoType = false :=
  ⟨rfl, rfl, by decide,
    (performAutoType_executes_while_focused asciiText sampleCollaborators changingPlatform plainEntry
      false "abc".toList 0 idleState rfl rfl (by decide)).2
      (AutoTypeChar 'a') (AutoTypeChar 'b') (AutoTypeChar 'c')
      { idleState with activeWindowCalls := 1 } 7 (by decide) (by decide),
    by decide, by decide⟩

/-- C18. For every call of `performAutoType` made with the in-flight flag
`false` and a plugin loaded, the flag is `false` when the call returns,
whether the sequence was rejected, typed to the end or interrupted by a
change of the window; when the sequence is rejected, no action is handed to
the executor and the active window is not asked for. -/
theorem performAutoType_clears_flag (Q : QtText) (E : Collaborators) (P : Platform)
    (entry : Entry) (hideWindow : Bool) (customSequence : QString) (window : WId)
    (st : AutoTypeState) (hidle : st.m_inAutoType = false) (hplugin : st.m_plugin = true) :
    (performAutoType Q E P entry hideWindow customSequence window st).m_inAutoType = false
    ∧ ((parseActions Q (usedSequence Q E entry customSequence) entry []).ok = false →
        (performAutoType Q E P entry hideWindow customSequence window st).executed
            = st.executed
        ∧ (performAutoType Q E P entry hideWindow customSequence window st).activeWindowCalls
            = st.activeWindowCalls) := by
  constructor
  · exact performAutoType_clears_flag_aux Q E P entry hideWindow customSequence window st
      hidle hplugin
  · intro hok
    rw [performAutoType_of_rejected Q E P entry hideWindow customSequence window st hidle
      hplugin hok]
    exact ⟨rfl, rfl⟩

theorem performAutoType_clears_flag_witness :
    idleState.m_inAutoType = false
    ∧ idleState.m_plugin = true
    ∧ (parseActions asciiText
        (usedSequence asciiText sampleCollaborators plainEntry "a\x7db".toList)
        plainEntry []).ok = false
    ∧ (performAutoType asciiText sampleCollaborators changingPlatform plainEntry true
        "a\x7db".toList 0 idleState).m_inAutoType = false
    ∧ (performAutoType asciiText sampleCollaborators changingPlatform plainEntry true
        "a\x7db".toList 0 idleState).executed = [] :=
  ⟨rfl, rfl, by decide,
    (performAutoType_clears_flag asciiText sampleCollaborators changingPlatform plainEntry true
      "a\x7db".toList 0 idleState rfl rfl).1,
    ((performAutoType_clears_flag asciiText sampleCollaborators changingPlatform plainEntry true
      "a\x7db".toList 0 idleState rfl rfl).2 (by decide)).1⟩

/-! ## The global trigger -/

theorem matchesIn_spec (Q : QtText) (E : Collaborators) (windowTitle : QString) :
    ∀ dbEntries : List Entry,
      (matchesIn Q E windowTitle dbEntries).map Prod.fst
          = dbEntries.filter (fun e => decide (autoTypeSequence Q E e windowTitle ≠ []))
      ∧ ∀ p ∈ matchesIn Q E windowTitle dbEntries,
          p.2 = autoTypeSequence Q E p.1 windowTitle := by
  intro dbEntries
  induction dbEntries with
  | nil => exact ⟨rfl, fun p hp => absurd hp (List.not_mem_nil p)⟩
  | cons e rest ih =>
    by_cases h : autoTypeSequence Q E e windowTitle = []
    · simp only [matchesIn, h, ne_eq, not_true_eq_false, if_false, List.filter_cons,
        decide_False, Bool.false_eq_true]
      exact ih
    · simp only [matchesIn, h, ne_eq, not_false_eq_true, if_true, List.map_cons,
        List.filter_cons, decide_True, List.mem_cons]
      refine ⟨by rw [ih.1], fun p hp => ?_⟩
      rcases hp with rfl | hp
      · rfl
      · exact ih.2 p hp

theorem globalMatches_spec (Q : QtText) (E : Collaborators) (windowTitle : QString) :
    ∀ dbList : List (List Entry),
      (globalMatches Q E windowTitle dbList).map Prod.fst
          = dbList.flatten.filter (fun e => decide (autoTypeSequence Q E e windowTitle ≠ []))
      ∧ ∀ p ∈ globalMatches Q E windowTitle dbList,
          p.2 = autoTypeSequence Q E p.1 windowTitle := by
  intro dbList
  induction dbList with
  | nil => exact ⟨rfl, fun p hp => absurd hp (List.not_mem_nil p)⟩
  | cons db rest ih =>
    have hdb := matchesIn_spec Q E windowTitle db
    refine ⟨?_, fun p hp => ?_⟩
    · simp only [globalMatches, List.map_append, List.flatten_cons, List.filter_append,
        hdb.1, ih.1]
    · simp only [globalMatches, List.mem_append] at hp
      rcases hp with hp | hp
      · exact hdb.2 p hp
      · exact ih.2 p hp

/-- C19. For every call of `performGlobalAutoType` that starts idle with a
plugin loaded and a non-empty title of the active window, with `entryList`
the entries whose sequence for that title is not empty: when the list is
empty, the flag is cleared, nothing is handed to the executor, no dialog is
shown and a message is displayed; when it holds one entry and no
confirmation is asked for, the call does what `performAutoType` does with
that entry and its sequence, and no dialog is shown; in every other case, two
or more entries or a single one with confirmation asked for, nothing is
handed to the executor, the dialog is shown with exactly these entries, and
the flag stays set until the dialog is confirmed or rejected, each of which
clears it. -/
theorem performGlobalAutoType_cases (Q : QtText) (E : Collaborators) (P : Platform)
    (dbList : List (List Entry)) (st : AutoTypeState)
    (hidle : st.m_inAutoType = false) (hplugin : st.m_plugin = true)
    (htitle : P.activeWindowTitle ≠ []) :
    ((globalMatches Q E P.activeWindowTitle dbList).map Prod.fst
        = dbList.flatten.filter
            (fun e => decide (autoTypeSequence Q E e P.activeWindowTitle ≠ [])))
    ∧ (globalMatches Q E P.activeWindowTitle dbList = [] →
        (performGlobalAutoType Q E P dbList st).m_inAutoType = false
        ∧ (performGlobalAutoType Q E P dbList st).executed = st.executed
        ∧ (performGlobalAutoType Q E P dbList st).dialogs = st.dialogs
        ∧ (performGlobalAutoType Q E P dbList st).messages
            = st.messages ++ [noMatchMessage P.activeWindowTitle])
    ∧ (∀ (entry : Entry) (sequence : QString),
        globalMatches Q E P.activeWindowTitle dbList = [(entry, sequence)] →
        P.autotypeask = false →
        performGlobalAutoType Q E P dbList st
            = performAutoType Q E P entry false sequence 0 st
        ∧ sequence = autoTypeSequence Q E entry P.activeWindowTitle
        ∧ usedSequence Q E entry sequence = sequence
        ∧ (performGlobalAutoType Q E P dbList st).dialogs = st.dialogs
        ∧ (performGlobalAutoType Q E P dbList st).m_inAutoType = false)
    ∧ ((2 ≤ (globalMatches Q E P.activeWindowTitle dbList).length
          ∨ ((globalMatches Q E P.activeWindowTitle dbList).length = 1
              ∧ P.autotypeask = true)) →
        (performGlobalAutoType Q E P dbList st).executed = st.executed
        ∧ (performGlobalAutoType Q E P dbList st).dialogs
            = st.dialogs ++ [globalMatches Q E P.activeWindowTitle dbList]
        ∧ (performGlobalAutoType Q E P dbList st).m_inAutoType = true
        ∧ (∀ (entry : Entry) (sequence : QString),
            (performAutoTypeFromGlobal Q E P entry sequence
              (performGlobalAutoType Q E P dbList st)).m_inAutoType = false)
        ∧ (resetInAutoType (performGlobalAutoType Q E P dbList st)).m_inAutoType = false
        ∧ (resetInAutoType (performGlobalAutoType Q E P dbList st)).executed
            = st.executed) := by
  have hspec := globalMatches_spec Q E P.activeWindowTitle dbList
  refine ⟨hspec.1, fun hm => ?_, fun entry sequence hm hask => ?_, fun hm => ?_⟩
  · have hstate : performGlobalAutoType Q E P dbList st
        = { st with m_inAutoType := false,
                    messages := st.messages ++ [noMatchMessage P.activeWindowTitle] } := by
      obtain ⟨inAT, plugin, d, wfg, calls, exec, dlg, msgs, hid⟩ := st
      simp only at hidle hplugin
      subst hidle hplugin
      simp only [performGlobalAutoType, htitle, hm, Bool.false_eq_true,
        Bool.true_eq_false, or_self, if_false]
    rw [hstate]
    exact ⟨rfl, rfl, rfl, rfl⟩
  · have hseq : sequence = autoTypeSequence Q E entry P.activeWindowTitle :=
      hspec.2 (entry, sequence) (by rw [hm]; exact List.mem_singleton.mpr rfl)
    have hne : sequence ≠ [] := by
      have := (List.mem_filter.mp (by
        rw [← hspec.1, hm]
        exact List.mem_singleton.mpr rfl :
        entry ∈ dbList.flatten.filter
          (fun e => decide (autoTypeSequence Q E e P.activeWindowTitle ≠ [])))).2
      rw [hseq]
      simpa using this
    have hrun : performGlobalAutoType Q E P dbList st
        = performAutoType Q E P entry false sequence 0 st := by
      obtain ⟨inAT, plugin, d, wfg, calls, exec, dlg, msgs, hid⟩ := st
      simp only at hidle hplugin
      subst hidle hplugin
      simp only [performGlobalAutoType, htitle, hm, hask, Bool.false_eq_true,
        Bool.true_eq_false, or_self, if_false, List.length_singleton, and_self, if_true]
    refine ⟨hrun, hseq, by simp [usedSequence, hne], ?_, ?_⟩
    · rw [hrun]
      exact (performAutoType_fields Q E P entry false sequence 0 st).1
    · rw [hrun]
      exact (performAutoType_clears_flag_aux Q E P entry false sequence 0 st hidle hplugin)
  · have hstate : performGlobalAutoType Q E P dbList st
        = { st with m_inAutoType := true,
                    m_windowFromGlobal := P.activeWindow st.activeWindowCalls,
                    activeWindowCalls := st.activeWindowCalls + 1,
                    dialogs := st.dialogs ++ [globalMatches Q E P.activeWindowTitle dbList] } := by
      cases hl : globalMatches Q E P.activeWindowTitle dbList with
      | nil => rw [hl] at hm; simp at hm
      | cons first others =>
        rw [hl] at hm
        have hcond : ¬ ((first :: others).length = 1 ∧ P.autotypeask = false) := by
          rintro ⟨h1, h2⟩
          rcases hm with hm | ⟨_, hm⟩
          · omega
          · rw [h2] at hm; exact absurd hm (by simp)
        obtain ⟨inAT, plugin, d, wfg, calls, exec, dlg, msgs, hid⟩ := st
        simp only at hidle hplugin
        subst hidle hplugin
        simp only [performGlobalAutoType, htitle, hl, Bool.false_eq_true,
          Bool.true_eq_false, or_self, if_false, hcond]
    rw [hstate]
    refine ⟨rfl, rfl, rfl, fun entry sequence => ?_, rfl, rfl⟩
    unfold performAutoTypeFromGlobal
    exact performAutoType_clears_flag_aux Q E P entry false sequence _ _ rfl hplugin

theorem performGlobalAutoType_cases_witness :
    idleState.m_inAutoType = false
    ∧ idleState.m_plugin = true
    ∧ changingPlatform.activeWindowTitle ≠ []
    ∧ (performGlobalAutoType asciiText sampleCollaborators changingPlatform [[bankEntry]]
        idleState).dialogs = []
    ∧ (performGlobalAutoType asciiText sampleCollaborators changingPlatform [[bankEntry]]
        idleState).executed = [AutoTypeKey Key_Tab]
    ∧ (performGlobalAutoType asciiText sampleCollaborators changingPlatform
        [[bankEntry], [plainEntry, bankEntry]] idleState).executed = []
    ∧ (performGlobalAutoType asciiText sampleCollaborators changingPlatform
        [[bankEntry], [plainEntry, bankEntry]] idleState).m_inAutoType = true :=
  ⟨rfl, rfl, by decide,
    ((performGlobalAutoType_cases asciiText sampleCollaborators changingPlatform [[bankEntry]]
      idleState rfl rfl (by decide)).2.2.1 bankEntry
      "{USERNAME}{TAB}{PASSWORD}{ENTER}".toList rfl rfl).2.2.2.1,
    by decide,
    ((performGlobalAutoType_cases asciiText sampleCollaborators changingPlatform
      [[bankEntry], [plainEntry, bankEntry]] idleState rfl rfl (by decide)).2.2.2
      (Or.inl (by decide))).1,
    ((performGlobalAutoType_cases asciiText sampleCollaborators changingPlatform
      [[bankEntry], [plainEntry, bankEntry]] idleState rfl rfl (by decide)).2.2.2
      (Or.inl (by decide))).2.2.1⟩

/-! ## Repeat counts on names outside the key table -/

/-- C20. For every token made of a non-empty name, a space and digits of a
value from 1 to 100, whose name is no key of the table, no function key and
not `delay`: the count does not multiply the output. A name that is
`clearfield` yields the single action `AutoTypeClearField`; any other name
yields, once, the expansion character by character of what the entry
resolves the bracketed name to, the count being left out of the placeholder,
and nothing when the entry returns the placeholder as it is. The result is
the same as for the count 1. -/
theorem createActionFromTemplate_count_ignored (Q : QtText) (entry : Entry) (delay : Int)
    (name ds : QString)
    (hne : name ≠ [])
    (hkeys : namedKeyActions Q name = [])
    (hnd : compareCI Q name "delay".toList = false)
    (hds : ds ≠ []) (hdig : ds.all Char.isDigit = true)
    (h1 : 1 ≤ decimalValue ds) (h100 : decimalValue ds ≤ 100) :
    createActionFromTemplate Q (name ++ ' ' :: ds) entry delay
        = (if compareCI Q name "clearfield".toList = true then [AutoTypeClearField]
          else if entry.resolvePlaceholder ('{' :: (name ++ ['}'])) = '{' :: (name ++ ['}'])
            then []
          else (entry.resolvePlaceholder ('{' :: (name ++ ['}']))).map resolvedCharAction,
          delay)
    ∧ createActionFromTemplate Q (name ++ ' ' :: ds) entry delay
        = createActionFromTemplate Q (name ++ ' ' :: ['1']) entry delay := by
  have key : ∀ digits : QString, digits ≠ [] → digits.all Char.isDigit = true →
      1 ≤ decimalValue digits → decimalValue digits ≤ 100 →
      createActionFromTemplate Q (name ++ ' ' :: digits) entry delay
        = (if compareCI Q name "clearfield".toList = true then [AutoTypeClearField]
          else if entry.resolvePlaceholder ('{' :: (name ++ ['}'])) = '{' :: (name ++ ['}'])
            then []
          else (entry.resolvePlaceholder ('{' :: (name ++ ['}']))).map resolvedCharAction,
          delay) := by
    intro digits hdn hdd hlo hhi
    have hsp : ' ' ∈ name ++ ' ' :: digits := by simp
    have hint : decimalValue digits ≤ 2147483647 := by omega
    have hz : ¬ ((decimalValue digits : Int) = 0) := by
      have : decimalValue digits ≠ 0 := by omega
      exact_mod_cast this
    have hgt : ¬ ((decimalValue digits : Int) > 100) := by
      have : (decimalValue digits : Int) ≤ 100 := by exact_mod_cast hhi
      omega
    unfold createActionFromTemplate
    rw [delayRegEx_none_of_space Q _ hsp, repeatStep_append Q name digits hne hdn hdd,
      toInt_of_digits digits hdn hdd]
    simp only [hint, if_true, hz, if_false, hnd, Bool.false_eq_true, hgt, hkeys, ne_eq,
      not_true_eq_false, false_and, placeholderActions]
    by_cases hc : compareCI Q name "clearfield".toList = true
    · simp only [hc, if_true, List.cons_ne_self, not_false_eq_true, if_false]
    · by_cases hr : entry.resolvePlaceholder ('{' :: (name ++ ['}'])) = '{' :: (name ++ ['}'])
      · simp only [hc, if_false, not_true_eq_false, hr, if_true]
        simp
      · have hr2 : ¬ ('{' :: (name ++ ['}'])
            = entry.resolvePlaceholder ('{' :: (name ++ ['}']))) := fun e => hr e.symm
        simp only [hc, if_false, not_true_eq_false, hr, hr2, not_false_eq_true, if_true]
        simp
  exact ⟨key ds hds hdig h1 h100,
    by rw [key ds hds hdig h1 h100, key ['1'] (by simp) (by decide) (by decide) (by decide)]⟩

theorem createActionFromTemplate_count_ignored_witness :
    namedKeyActions asciiText "UserName".toList = []
    ∧ compareCI asciiText "UserName".toList "delay".toList = false
    ∧ createActionFromTemplate asciiText ("UserName".toList ++ ' ' :: "3".toList) bobEntry 0
        = ([AutoTypeChar 'b', AutoTypeChar 'o', AutoTypeChar 'b'], 0)
    ∧ createActionFromTemplate asciiText ("ClearField".toList ++ ' ' :: "5".toList) bobEntry 0
        = ([AutoTypeClearField], 0) :=
  ⟨by decide, by decide,
    (createActionFromTemplate_count_ignored asciiText bobEntry 0 "UserName".toList "3".toList
      (by decide) (by decide) (by decide) (by decide) (by decide) (by decide) (by decide)).1,
    (createActionFromTemplate_count_ignored asciiText bobEntry 0 "ClearField".toList
      "5".toList (by decide) (by decide) (by decide) (by decide) (by decide) (by decide)
      (by decide)).1⟩

/-! ## The token buffers handed to the resolver -/

theorem scanLoopCalls_fst (Q : QtText) (entry : Entry) :
    ∀ (s : QString) (st : ParseState),
      (scanLoopCalls Q entry s st).1 = scanLoop Q entry s st := by
  intro s
  induction s with
  | nil => intro st; rfl
  | cons ch rest ih =>
    intro st
    rw [scanLoopCalls, scanLoop]
    split_ifs
    · rfl
    · exact ih _
    · exact ih _
    · exact ih _
    · rfl
    · exact ih _

theorem scanLoopCalls_brace_free (Q : QtText) (entry : Entry) :
    ∀ (s : QString) (st : ParseState),
      (∀ c ∈ st.tmpl, c ≠ '{' ∧ c ≠ '}') →
        ∀ t ∈ (scanLoopCalls Q entry s st).2, ∀ c ∈ t, c ≠ '{' ∧ c ≠ '}' := by
  intro s
  induction s with
  | nil => intro st _ t ht; simp [scanLoopCalls] at ht
  | cons ch rest ih =>
    intro st hst t ht
    rw [scanLoopCalls] at ht
    split_ifs at ht with h1 h2 h3 h4 h5
    · simp at ht
    · simp only [List.mem_cons] at ht
      rcases ht with rfl | ht
      · exact hst
      · exact ih _ (fun c hc => absurd hc (List.not_mem_nil c)) t ht
    · refine ih _ (fun c hc => ?_) t ht
      simp only [List.mem_append, List.mem_singleton] at hc
      rcases hc with hc | rfl
      · exact hst c hc
      · exact ⟨h2, h3⟩
    · exact ih { st with inTmpl := true } hst t ht
    · simp at ht
    · exact ih { st with actions := st.actions ++ [AutoTypeChar ch] } hst t ht

theorem repeatStep_name_mem (Q : QtText) (t name : QString) (num : Int)
    (h : repeatStep Q t = some (name, num)) : ∀ c ∈ name, c ∈ t := by
  unfold repeatStep at h
  cases hm : repeatRegEx Q t with
  | none =>
    rw [hm] at h
    simp only [Option.some.injEq, Prod.mk.injEq] at h
    rw [← h.1]
    exact fun c hc => hc
  | some p =>
    obtain ⟨a, b⟩ := p
    rw [hm] at h
    have e := (repeatRegEx_some Q t a b hm).1
    have hname : name = a := by
      simp only at h
      split_ifs at h <;> simp only [Option.some.injEq, Prod.mk.injEq] at h <;> exact h.1.symm
    intro c hc
    rw [e, List.mem_append]
    exact Or.inl (hname ▸ hc)

theorem compareCI_single (Q : QtText) (name : QString) (brace : Char)
    (hascii : brace.toNat < 128) (hfix : brace.toLower = brace)
    (hQ : ∀ c : Char, Q.toCaseFolded c = brace → c = brace)
    (hname : ∀ c ∈ name, c ≠ brace) :
    compareCI Q name [brace] = false := by
  unfold compareCI
  have hb : [brace].map Q.toCaseFolded = [brace] := by
    simp only [List.map_cons, List.map_nil, Q.toCaseFolded_ascii brace hascii, hfix]
  rw [hb]
  cases name with
  | nil => rfl
  | cons c rest =>
    cases rest with
    | nil =>
      have hc : Q.toCaseFolded c ≠ brace :=
        fun e => hname c (List.mem_cons_self _ _) (hQ c e)
      simp [hc]
    | cons d more => simp

theorem toLower_eq_of_not_lower (c b : Char) (hb : ¬ (97 ≤ b.toNat ∧ b.toNat ≤ 122))
    (h : c.toLower = b) : c = b := by
  unfold Char.toLower at h
  simp only at h
  split_ifs at h with hc
  · exfalso
    obtain ⟨n, hn⟩ : ∃ n, c.toNat = n := ⟨_, rfl⟩
    rw [hn] at h hc
    obtain ⟨h65, h90⟩ := hc
    have h65b : 65 ≤ n := h65
    subst h
    interval_cases n <;> exact hb (by decide)
  · exact h

theorem ite_ne_of {α : Type} {c : Prop} [Decidable c] {x y t : α}
    (hx : c → x ≠ t) (hy : ¬ c → y ≠ t) : (if c then x else y) ≠ t := by
  split_ifs with h
  · exact hx h
  · exact hy h

theorem namedKeyActions_ne_brace (Q : QtText) (name : QString) (b : Char)
    (hb : b = '{' ∨ b = '}')
    (h1 : compareCI Q name ['{'] = false) (h2 : compareCI Q name ['}'] = false) :
    namedKeyActions Q name ≠ [AutoTypeChar b] := by
  unfold namedKeyActions
  repeat (refine ite_ne_of (fun hc => ?_) (fun _ => ?_); · first
    | (intro h; cases h; done)
    | (intro h; cases h; rcases hb with hb | hb <;> exact absurd hb (by decide))
    | (rw [h1] at hc; exact absurd hc (by decide))
    | (rw [h2] at hc; exact absurd hc (by decide)))
  cases fnRegexp Q name with
  | none => intro h; cases h
  | some cap1 =>
    simp only
    refine ite_ne_of (fun _ => ?_) (fun _ => ?_) <;> intro h <;> cases h

theorem performAutoType_rejected_executed (Q : QtText) (E : Collaborators) (P : Platform)
    (entry : Entry) (hideWindow : Bool) (customSequence : QString) (window : WId)
    (st : AutoTypeState)
    (hok : (parseActions Q (usedSequence Q E entry customSequence) entry []).ok = false) :
    (performAutoType Q E P entry hideWindow customSequence window st).executed
      = st.executed := by
  simp only [performAutoType, hok, if_true]
  split_ifs <;> rfl

theorem parseActions_nested_open (Q : QtText) (entry : Entry) :
    parseActions Q ['{', '{', '}'] entry []
      = { ok := false, actions := [], m_autoTypeDelay := 0 } := by
  rw [parseActions_ascii Q entry _ (by decide)]
  rfl

theorem parseActions_stray_close (Q : QtText) (entry : Entry) :
    (parseActions Q ['{', '}', '}'] entry []).ok = false := by
  rw [parseActions_ascii Q entry _ (by decide)]
  rfl

/-- C21. For every sequence, the token buffers handed to
`createActionFromTemplate` during the scan of `parseActions` (the record kept
by `scanLoopCalls`, whose result is that of the scan itself) hold neither an
opening nor a closing brace. Hence, as long as no character other than a brace
case-folds to that brace, the name compared at lines 489 and 492 is never the
opening or the closing brace for any of these buffers and the comparison chain
never gives the literal-brace action, although it would give it for the names
themselves. The sequences made of two opening braces and a closing one, and of
an opening brace and two closing ones, are both rejected, and `performAutoType`
hands nothing to the executor for them. -/
theorem parseActions_tokens_brace_free (Q : QtText) (entry : Entry) (sequence : QString) :
    (scanLoopCalls Q entry sequence (initialState [])).1
        = scanLoop Q entry sequence (initialState [])
    ∧ (∀ t ∈ (scanLoopCalls Q entry sequence (initialState [])).2,
        ∀ c ∈ t, c ≠ '{' ∧ c ≠ '}')
    ∧ ((∀ c : Char, Q.toCaseFolded c = '{' → c = '{') →
       (∀ c : Char, Q.toCaseFolded c = '}' → c = '}') →
        ∀ t ∈ (scanLoopCalls Q entry sequence (initialState [])).2,
          ∀ (name : QString) (num : Int), repeatStep Q t = some (name, num) →
            compareCI Q name ['{'] = false ∧ compareCI Q name ['}'] = false
            ∧ namedKeyActions Q name ≠ [AutoTypeChar '{']
            ∧ namedKeyActions Q name ≠ [AutoTypeChar '}'])
    ∧ namedKeyActions Q ['{'] = [AutoTypeChar '{']
    ∧ namedKeyActions Q ['}'] = [AutoTypeChar '}']
    ∧ parseActions Q ['{', '{', '}'] entry []
        = { ok := false, actions := [], m_autoTypeDelay := 0 }
    ∧ (parseActions Q ['{', '}', '}'] entry []).ok = false
    ∧ (∀ (E : Collaborators) (P : Platform) (hideWindow : Bool) (window : WId)
          (st : AutoTypeState),
        (performAutoType Q E P entry hideWindow ['{', '{', '}'] window st).executed
            = st.executed
        ∧ (performAutoType Q E P entry hideWindow ['{', '}', '}'] window st).executed
            = st.executed) := by
  have hfree := scanLoopCalls_brace_free Q entry sequence (initialState [])
    (fun c hc => absurd hc (List.not_mem_nil c))
  refine ⟨scanLoopCalls_fst Q entry sequence _, hfree, ?_, ?_, ?_,
    parseActions_nested_open Q entry, parseActions_stray_close Q entry, ?_⟩
  · intro hopen hclose t ht name num hstep
    have hmem := repeatStep_name_mem Q t name num hstep
    have h1 : compareCI Q name ['{'] = false :=
      compareCI_single Q name '{' (by decide) (by decide) hopen
        (fun c hc => (hfree t ht c (hmem c hc)).1)
    have h2 : compareCI Q name ['}'] = false :=
      compareCI_single Q name '}' (by decide) (by decide) hclose
        (fun c hc => (hfree t ht c (hmem c hc)).2)
    exact ⟨h1, h2, namedKeyActions_ne_brace Q name '{' (Or.inl rfl) h1 h2,
      namedKeyActions_ne_brace Q name '}' (Or.inr rfl) h1 h2⟩
  · exact namedKeyActions_keyTable Q "\x7b" _ (by simp [keyTable]) ['{'] (by decide)
  · exact namedKeyActions_keyTable Q "\x7d" _ (by simp [keyTable]) ['}'] (by decide)
  · intro E P hideWindow window st
    constructor
    · exact performAutoType_rejected_executed Q E P entry hideWindow _ window st
        (by
          have e : usedSequence Q E entry ['{', '{', '}'] = ['{', '{', '}'] := by
            simp [usedSequence]
          rw [e, parseActions_nested_open])
    · exact performAutoType_rejected_executed Q E P entry hideWindow _ window st
        (by
          have e : usedSequence Q E entry ['{', '}', '}'] = ['{', '}', '}'] := by
            simp [usedSequence]
          rw [e]
          exact parseActions_stray_close Q entry)

/-- C21, an instance: the sequence `{+}{TAB 2}x` hands the buffers `+` and
`TAB 2` to the resolver; the ASCII text primitives fold no other character to
a brace; the name `TAB` of the second buffer is compared with neither brace
successfully. -/
theorem parseActions_tokens_brace_free_witness :
    (scanLoopCalls asciiText plainEntry "{+}{TAB 2}x".toList (initialState [])).2
        = ["+".toList, "TAB 2".toList]
    ∧ (∀ c : Char, asciiText.toCaseFolded c = '{' → c = '{')
    ∧ (∀ c : Char, asciiText.toCaseFolded c = '}' → c = '}')
    ∧ repeatStep asciiText "TAB 2".toList = some ("TAB".toList, 2)
    ∧ (compareCI asciiText "TAB".toList ['{'] = false
        ∧ compareCI asciiText "TAB".toList ['}'] = false
        ∧ namedKeyActions asciiText "TAB".toList ≠ [AutoTypeChar '{']
        ∧ namedKeyActions asciiText "TAB".toList ≠ [AutoTypeChar '}']) :=
  have hcalls : (scanLoopCalls asciiText plainEntry "{+}{TAB 2}x".toList
      (initialState [])).2 = ["+".toList, "TAB 2".toList] := by rfl
  have hopen : ∀ c : Char, asciiText.toCaseFolded c = '{' → c = '{' :=
    fun c h => toLower_eq_of_not_lower c '{' (by decide) h
  have hclose : ∀ c : Char, asciiText.toCaseFolded c = '}' → c = '}' :=
    fun c h => toLower_eq_of_not_lower c '}' (by decide) h
  ⟨hcalls, hopen, hclose, rfl,
    (parseActions_tokens_brace_free asciiText plainEntry "{+}{TAB 2}x".toList).2.2.1
      hopen hclose "TAB 2".toList (by rw [hcalls]; simp) "TAB".toList 2 rfl⟩

end AutoType
